import Mathlib

/-!
Verification of the dropcast bookmark retrieval-and-formatting pipeline.

The JavaScript sources are shallowly embedded:

* `src/bookmark-model.js` — `BookmarkModel.validate`,
  `BookmarkModel.fromRaindropApiResponse`, `BookmarkModel.fromRaindropApiResponseArray`.
* `src/raindrop-client.js` — `RaindropClient.getRecentBookmarks` (the pagination loop).
* `src/email-formatter.js` — `EmailFormatter` (grouping, sorting, rendering, subject).

Conventions of the embedding:

* JavaScript exceptions become `Except String`; the thrown message is kept verbatim.
* The platform URL parser (`new URL(...)` succeeding or throwing) is an external
  collaborator and is threaded through as a parameter `validURL : String → Bool`.
* The locale collation `String.prototype.localeCompare(b, ja)` is likewise threaded
  through as an integer-valued comparator parameter `cmp : String → String → Int`.
* JavaScript `Date` values are epoch milliseconds (`Int`); an Invalid Date (whose
  `getTime()` is NaN) is `Option.none`.  The local timezone of the runtime is
  modelled as UTC (the Lambda runtime default).
* `Array.prototype.sort` (stable since ES2019) is modelled by the stable
  `List.insertionSort`; for a total preorder comparator a stable sort has a unique
  output, so this is faithful.
-/

namespace Dropcast

/-- A JavaScript primitive that can sit in the raw item field `_id`
(Raindrop delivers numbers; the repository's tests use strings). -/
inductive JsPrim where
  | num (n : Int)
  | str (s : String)
deriving DecidableEq, Repr

/-- JavaScript truthiness of such a primitive (`0`, `NaN` and `""` are falsy). -/
def JsPrim.truthy : JsPrim → Bool
  | .num n => n != 0
  | .str s => s != ""

/-- `typeof v === "number"`. -/
def JsPrim.isNumber : JsPrim → Bool
  | .num _ => true
  | .str _ => false

/-- A raw item of the upstream listing response, as consumed by
`BookmarkModel.fromRaindropApiResponse`.  `Option.none` models an absent
(or, for `created`, falsy) field. `created = some none` models a present
creation string that `new Date(...)` cannot parse (an Invalid Date);
`created = some (some t)` parses to epoch milliseconds `t`.
`important` carries the result of the `Boolean(...)` coercion. -/
structure RawItem where
  _id : Option JsPrim
  title : Option String
  link : Option String
  tags : Option (List String)
  important : Bool
  created : Option (Option Int)
deriving DecidableEq, Repr

/-- The bookmark record held by a `BookmarkModel` instance.  `createdAt = none`
models an Invalid Date. -/
structure Bookmark where
  id : JsPrim
  title : String
  url : String
  folder : String
  isFavorite : Bool
  createdAt : Option Int
deriving DecidableEq, Repr

namespace BookmarkModel

/-- The error list collected by `BookmarkModel.validate` (src/bookmark-model.js,
`validate()`), specialised to the typed record built by the converter: `title`,
`folder` are always strings and `isFavorite` always a boolean there, so only the
id, url and createdAt checks can fire.  `validURL` stands for the platform URL
parser: `validURL u = true` iff `new URL(u)` does not throw. -/
def validationErrors (validURL : String → Bool) (b : Bookmark) : List String :=
  (if ¬ (b.id.truthy ∧ b.id.isNumber) then ["id は必須の数値です"] else []) ++
  (if b.url = "" then ["url は必須の文字列です"] else []) ++
  (if b.createdAt = none then ["createdAt は有効な日付である必要があります"] else []) ++
  (if b.url ≠ "" ∧ ¬ validURL b.url then ["url は有効なURL形式である必要があります"] else [])

/-- `new BookmarkModel(data)`: runs `validate()` and either throws the joined
error message or yields the record. -/
def validate (validURL : String → Bool) (b : Bookmark) : Except String Bookmark :=
  let errors := validationErrors validURL b
  if errors = [] then .ok b
  else .error ("ブックマークデータ検証エラー: " ++ String.intercalate ", " errors)

/-- `BookmarkModel.fromRaindropApiResponse(apiItem)` (src/bookmark-model.js).
Mirrors the source line by line: missing/falsy `_id` or `link` throw; the folder
is `apiItem.tags.at(0) ?? "未分類"`, which throws a `TypeError` when `tags` is
absent (reading `.at` of `undefined`); the title falls back on the placeholder
when absent or empty; `createdAt` is `new Date(created)` when `created` is
truthy, else the current time `now`; finally `new BookmarkModel(...)` validates. -/
def fromRaindropApiResponse (validURL : String → Bool) (now : Int)
    (apiItem : RawItem) : Except String Bookmark :=
  match apiItem._id with
  | none => .error "APIレスポンスにIDが含まれていません"
  | some idv =>
    if ¬ idv.truthy then .error "APIレスポンスにIDが含まれていません" else
    match apiItem.link with
    | none => .error "APIレスポンスにリンクが含まれていません"
    | some link =>
      if link = "" then .error "APIレスポンスにリンクが含まれていません" else
      match apiItem.tags with
      | none => .error "TypeError: Cannot read properties of undefined (reading at)"
      | some tags =>
        let folder := tags.head?.getD "未分類"
        let title :=
          match apiItem.title with
          | none => "タイトルなし"
          | some t => if t = "" then "タイトルなし" else t
        let createdAt : Option Int :=
          match apiItem.created with
          | none => some now
          | some parsed => parsed
        validate validURL
          { id := idv, title := title, url := link, folder := folder,
            isFavorite := apiItem.important, createdAt := createdAt }

/-- One step of the `forEach` loop of `fromRaindropApiResponseArray`: a converted
bookmark is pushed onto the result array, a failure is pushed onto the error
array as `アイテム {index}: {message}`. -/
def batchStep (validURL : String → Bool) (now : Int)
    (acc : List Bookmark × List String) (pr : Nat × RawItem) :
    List Bookmark × List String :=
  match fromRaindropApiResponse validURL now pr.2 with
  | .ok bm => (acc.1 ++ [bm], acc.2)
  | .error msg => (acc.1, acc.2 ++ ["アイテム " ++ toString pr.1 ++ ": " ++ msg])

/-- `BookmarkModel.fromRaindropApiResponseArray(apiItems)`: converts the items
one by one, collecting successes and per-item failure messages.  The first
component is the returned array, the second the collected error strings that are
joined into the single `console.warn` below. -/
def fromRaindropApiResponseArray (validURL : String → Bool) (now : Int)
    (apiItems : List RawItem) : List Bookmark × List String :=
  apiItems.enum.foldl (batchStep validURL now) ([], [])

/-- The single batch-level warning: emitted (as one `console.warn`) exactly when
some item failed, listing every failed index and reason. -/
def batchWarning (validURL : String → Bool) (now : Int)
    (apiItems : List RawItem) : Option String :=
  let errors := (fromRaindropApiResponseArray validURL now apiItems).2
  if errors = [] then none
  else some ("ブックマーク変換中にエラーが発生しました: " ++ String.intercalate ", " errors)

end BookmarkModel

namespace RaindropClient

/-- One upstream page response, as destructured by `const { items, count } =
response.data`.  `items = none` models a response whose `items` field is absent
or not an array (the `UPSTREAM_PROTOCOL_ERROR` branch). -/
structure PageResponse where
  items : Option (List RawItem)
  count : Nat

/-- Outcome of one `getRecentBookmarks` run against an upstream behaviour:
the returned array (or the propagated error), how many page requests were
issued, and whether the max-page warning fired. -/
structure FetchResult where
  result : Except String (List Bookmark)
  requests : Nat
  warned : Bool
deriving Repr

/-- The `while (hasMorePages)` loop body of `RaindropClient.getRecentBookmarks`
(src/raindrop-client.js).  The iteration at page index `page` runs with
`fuel = 100 - page`: after the source increments `page`, it breaks (with the
max-page warning) when the new value exceeds 100, i.e. exactly when `fuel = 0`
here.  `api` is the upstream: `api p` is the response to the request for page
`p`.  Each iteration issues one request, converts the page through
`BookmarkModel.fromRaindropApiResponseArray`, appends the survivors, and
continues iff the page held exactly `perPage = 50` raw items and the
accumulated array is still shorter than the `count` of the response
just fetched. -/
def getRecentBookmarksLoop (validURL : String → Bool) (now : Int)
    (api : Nat → PageResponse) :
    Nat → Nat → List Bookmark → FetchResult
  | fuel, page, allBookmarks =>
    match (api page).items with
    | none => { result := .error "Raindrop.io APIからの無効なレスポンス形式", requests := 1, warned := false }
    | some items =>
      let parsedBookmarks := (BookmarkModel.fromRaindropApiResponseArray validURL now items).1
      let allBookmarks := allBookmarks ++ parsedBookmarks
      let hasMorePages := items.length == 50 && allBookmarks.length < (api page).count
      match fuel with
      | 0 => { result := .ok allBookmarks, requests := 1, warned := true }
      | fuel' + 1 =>
        if hasMorePages then
          let rest := getRecentBookmarksLoop validURL now api fuel' (page + 1) allBookmarks
          { rest with requests := rest.requests + 1 }
        else
          { result := .ok allBookmarks, requests := 1, warned := false }

/-- `RaindropClient.getRecentBookmarks` with the date filtering abstracted away
(the `created` range only shapes the query string): the pagination run starting
at page 0 with an empty accumulator. -/
def getRecentBookmarks (validURL : String → Bool) (now : Int)
    (api : Nat → PageResponse) : FetchResult :=
  getRecentBookmarksLoop validURL now api 100 0 []

/-- The raw items of page `p` (empty for a malformed page). -/
def pageItems (api : Nat → PageResponse) (p : Nat) : List RawItem :=
  ((api p).items).getD []

/-- The validated records that page `p` contributes. -/
def pageParsed (validURL : String → Bool) (now : Int)
    (api : Nat → PageResponse) (p : Nat) : List Bookmark :=
  (BookmarkModel.fromRaindropApiResponseArray validURL now (pageItems api p)).1

/-- The accumulator contents after pages `0 … n-1` have been fetched and
converted. -/
def accBooks (validURL : String → Bool) (now : Int)
    (api : Nat → PageResponse) (n : Nat) : List Bookmark :=
  ((List.range n).map (pageParsed validURL now api)).flatten

/-- The continuation condition evaluated after fetching page `p`: the page was
full-sized and the accumulated validated records are still fewer than the
`count` reported by that same response. -/
def shouldCont (validURL : String → Bool) (now : Int)
    (api : Nat → PageResponse) (p : Nat) : Prop :=
  (pageItems api p).length = 50 ∧
    (accBooks validURL now api (p + 1)).length < (api p).count

instance (validURL : String → Bool) (now : Int) (api : Nat → PageResponse)
    (p : Nat) : Decidable (shouldCont validURL now api p) := by
  unfold shouldCont; infer_instance

/-- The length of the run of consecutive pages from `page` on which
`shouldCont` holds, capped at `fuel`. -/
def contRun (validURL : String → Bool) (now : Int) (api : Nat → PageResponse) :
    Nat → Nat → Nat
  | _page, 0 => 0
  | page, fuel + 1 =>
    if shouldCont validURL now api page then
      contRun validURL now api (page + 1) fuel + 1
    else 0

end RaindropClient

namespace EmailFormatter

/-- The sort key of `new Date(b.createdAt)` inside the comparator of
`#groupBookmarksByFolder`: for the validated records the formatter consumes,
`createdAt` is always a valid date, so `getD 0` is never exercised there. -/
def createdKey (b : Bookmark) : Int := b.createdAt.getD 0

/-- `bookmark.folder || "未分類"` — the grouping key of a record. -/
def folderKey (b : Bookmark) : String :=
  if b.folder = "" then "未分類" else b.folder

/-- The keys of the `grouped` object in their JavaScript insertion order:
first occurrence order of the records' folder keys. -/
def keysInOrder (bookmarks : List Bookmark) : List String :=
  bookmarks.foldl
    (fun ks b => if folderKey b ∈ ks then ks else ks ++ [folderKey b]) []

/-- The folder-name order induced by the comparator
`(a, b) => a.localeCompare(b, "ja")`: `a` may sit before `b` iff the comparator
is nonpositive. -/
def keyLe (cmp : String → String → Int) (a b : String) : Prop := cmp a b ≤ 0

instance (cmp : String → String → Int) : DecidableRel (keyLe cmp) := by
  unfold keyLe; infer_instance

/-- The record order induced by the comparator
`(a, b) => new Date(b.createdAt) - new Date(a.createdAt)` (newest first):
`a` may sit before `b` iff the comparator is nonpositive. -/
def createdDesc (a b : Bookmark) : Prop := createdKey b ≤ createdKey a

instance : DecidableRel createdDesc := by
  unfold createdDesc; infer_instance

/-- The property names present on `Object.prototype`: the source stores the
groups in a plain object (`const grouped = {}`), so a property read on a key
that is not an own property but is one of these names yields the inherited
value (a function, or the prototype itself for the accessor at position 12) —
a truthy non-array. -/
def objectProtoKeys : List String :=
  ["constructor", "hasOwnProperty", "isPrototypeOf", "propertyIsEnumerable",
   "toLocaleString", "toString", "valueOf", "__defineGetter__",
   "__defineSetter__", "__lookupGetter__", "__lookupSetter__", "__proto__"]

/-- The numeric value read off a digit string (meaningful only when every
character is a decimal digit). -/
def arrayIndexVal (s : String) : Nat :=
  s.data.foldl (fun n c => 10 * n + (c.toNat - 48)) 0

/-- Whether a property key is an *array index* in the ECMAScript sense: the
canonical decimal numeral of an integer below 2^32 - 1.  Such keys are
enumerated before all other string keys, in ascending numeric order, by
`Object.keys` / `Object.entries` / `for...in`. -/
def isArrayIndex (s : String) : Bool :=
  s.data.all Char.isDigit && (Nat.repr (arrayIndexVal s) == s) &&
    decide (arrayIndexVal s < 4294967295)

/-- Ascending numeric order of array-index keys. -/
def idxLe (a b : String) : Prop := arrayIndexVal a ≤ arrayIndexVal b

instance : DecidableRel idxLe := fun a b => by unfold idxLe; infer_instance

/-- The order in which a plain JavaScript object whose own property keys were
created in the given order enumerates them (`Object.keys`): array-index keys
first in ascending numeric order, then the remaining string keys in creation
order. -/
def jsObjectKeys (keys : List String) : List String :=
  List.insertionSort idxLe (keys.filter isArrayIndex)
    ++ keys.filter fun k => !isArrayIndex k

/-- Ascending numeric order of array-index keys, on key-value entries. -/
def entryIdxLe (a b : String × List Bookmark) : Prop :=
  arrayIndexVal a.1 ≤ arrayIndexVal b.1

instance : DecidableRel entryIdxLe := fun a b => by
  unfold entryIdxLe; infer_instance

/-- `Object.entries` of a plain object whose own properties were created in
the given order: the same enumeration rule as `jsObjectKeys`, on the
key-value pairs. -/
def jsObjectEntries (obj : List (String × List Bookmark)) :
    List (String × List Bookmark) :=
  List.insertionSort entryIdxLe (obj.filter fun pr => isArrayIndex pr.1)
    ++ obj.filter fun pr => !isArrayIndex pr.1

/-- Reading an own property of the grouped object: the value at the first (and
only) entry carrying the key, `[]` when absent. -/
def lookupGroup (grouped : List (String × List Bookmark)) (k : String) :
    List Bookmark :=
  ((grouped.find? fun pr => pr.1 == k).map Prod.snd).getD []

/-- One iteration of the grouping `forEach`:
`if (!grouped[folderName]) { grouped[folderName] = []; } grouped[folderName].push(bookmark)`.
When the key is already an own property the array is extended in place; when
it is absent but names an `Object.prototype` property, the read yields the
truthy inherited value, the initialisation is skipped, and the `push` call on
a non-array throws; otherwise a fresh own property is created at the end of
the insertion order. -/
def groupedInsert (grouped : List (String × List Bookmark)) (k : String)
    (b : Bookmark) : Except String (List (String × List Bookmark)) :=
  if k ∈ grouped.map Prod.fst then
    .ok (grouped.map fun pr => if pr.1 == k then (pr.1, pr.2 ++ [b]) else pr)
  else if k ∈ objectProtoKeys then
    .error "TypeError: grouped[folderName].push is not a function"
  else
    .ok (grouped ++ [(k, [b])])

/-- The grouping `forEach` of `#groupBookmarksByFolder` over the record list,
threading the plain object as its insertion-ordered own-property list. -/
def buildGrouped : List Bookmark → List (String × List Bookmark) →
    Except String (List (String × List Bookmark))
  | [], grouped => .ok grouped
  | b :: bs, grouped =>
    match groupedInsert grouped (folderKey b) b with
    | .error e => .error e
    | .ok grouped' => buildGrouped bs grouped'

/-- `EmailFormatter.#groupBookmarksByFolder` (src/email-formatter.js): group
the records by folder key into a plain object (which throws a `TypeError` when
a folder name collides with an `Object.prototype` property), sort
`Object.keys(grouped)` — the enumeration order, array-index keys first — with
the locale comparator, and build `sortedGrouped` by assigning the keys in
sorted order with each group re-sorted newest first.  Both JavaScript
`Array.sort` calls are stable and are modelled by the stable
`List.insertionSort`. -/
def groupBookmarksByFolder (cmp : String → String → Int)
    (bookmarks : List Bookmark) :
    Except String (List (String × List Bookmark)) :=
  match buildGrouped bookmarks [] with
  | .error e => .error e
  | .ok grouped =>
    let sortedFolderNames :=
      List.insertionSort (keyLe cmp) (jsObjectKeys (grouped.map Prod.fst))
    .ok (sortedFolderNames.map fun k =>
      (k, List.insertionSort createdDesc (lookupGroup grouped k)))

/-- `EmailFormatter.#formatSingleBookmark`: the `* "Title":URL` line, with the
favorite token appended after a single space for favorites. -/
def formatSingleBookmark (b : Bookmark) : String :=
  let formattedLine := "* \"" ++ b.title ++ "\":" ++ b.url
  if b.isFavorite then formattedLine ++ " %\x7bcolor: red\x7d★%" else formattedLine

/-- `EmailFormatter.#formatFolderSection`: the `h4.` heading followed by one
line per record of the group. -/
def formatFolderSection (pr : String × List Bookmark) : String :=
  pr.2.foldl (fun section_ b => section_ ++ "\n" ++ formatSingleBookmark b)
    ("h4. " ++ pr.1)

/-- The range suffix appended by `#formatHeader` and `#formatEmptyMessage`
when `dateRange` is truthy (absent and empty strings are falsy in
`if (dateRange)`). -/
def rangeSuffix (dateRange : Option String) : String :=
  match dateRange with
  | some r => if r = "" then "" else " (" ++ r ++ ")"
  | none => ""

/-- `EmailFormatter.#formatHeader`. -/
def formatHeader (bookmarkCount : Nat) (dateRange : Option String) : String :=
  "今週のブックマークダイジェスト" ++ rangeSuffix dateRange
    ++ "\n\n合計 " ++ toString bookmarkCount ++ " 件のブックマークが見つかりました。"

/-- `EmailFormatter.#formatEmptyMessage`. -/
def formatEmptyMessage (dateRange : Option String) : String :=
  "今週のブックマークダイジェスト" ++ rangeSuffix dateRange
    ++ "\n\n今週は新しいブックマークがありませんでした。"

/-- `EmailFormatter.formatBookmarksToEmailBody(bookmarks, {dateRange,
includeHeader})`.  A null/absent `bookmarks` behaves like the empty list.  The
folder sections are iterated through `Object.entries(groupedBookmarks)`, i.e.
in the object enumeration order of `sortedGrouped`; a `TypeError` raised
inside the grouping propagates out of the call. -/
def formatBookmarksToEmailBody (cmp : String → String → Int)
    (bookmarks : List Bookmark) (dateRange : Option String)
    (includeHeader : Bool) : Except String String :=
  if bookmarks.length = 0 then .ok (formatEmptyMessage dateRange)
  else
    match groupBookmarksByFolder cmp bookmarks with
    | .error e => .error e
    | .ok groupedBookmarks =>
      .ok ((if includeHeader then formatHeader bookmarks.length dateRange ++ "\n\n" else "")
        ++ String.intercalate "\n\n"
            ((jsObjectEntries groupedBookmarks).map formatFolderSection))

/-- Closed form of the successful grouping (proved equal to the `ok` value of
`groupBookmarksByFolder` below): the distinct folder keys in enumeration
order, sorted by the comparator, each paired with its input-order fiber sorted
newest first. -/
def groupedSections (cmp : String → String → Int)
    (bookmarks : List Bookmark) : List (String × List Bookmark) :=
  (List.insertionSort (keyLe cmp) (jsObjectKeys (keysInOrder bookmarks))).map
    fun k =>
      (k, List.insertionSort createdDesc
            (bookmarks.filter fun b => folderKey b == k))

/-- The folder sections in the order the body renders them: the enumeration
order of `sortedGrouped`, i.e. `Object.entries` applied to the successful
grouping. -/
def renderedSections (cmp : String → String → Int)
    (bookmarks : List Bookmark) : List (String × List Bookmark) :=
  jsObjectEntries (groupedSections cmp bookmarks)

/-- `String(n).padStart(2, "0")` for a decimal rendering (always nonempty). -/
def pad2 (n : Nat) : String :=
  if 2 ≤ (toString n).length then toString n else "0" ++ toString n

/-- Civil calendar date `(year, month 1..12, day 1..31)` of a day count
relative to 1970-01-01 (Howard Hinnant's `civil_from_days`).  This is what the
`getFullYear`/`getMonth`/`getDate` accessors return on a runtime whose local
timezone is UTC, as on the Lambda host. -/
def civilFromDays (z : Int) : Int × Nat × Nat :=
  let z' := z + 719468
  let era := Int.fdiv z' 146097
  let doe : Nat := (z' - era * 146097).toNat
  let yoe : Nat := (doe - doe / 1460 + doe / 36524 - doe / 146096) / 365
  let doy : Nat := doe - (365 * yoe + yoe / 4 - yoe / 100)
  let mp : Nat := (5 * doy + 2) / 153
  let d : Nat := doy - (153 * mp + 2) / 5 + 1
  let m : Nat := if mp < 10 then mp + 3 else mp - 9
  (era * 400 + yoe + (if m ≤ 2 then 1 else 0), m, d)

/-- `date.getFullYear()` (UTC local time), on epoch milliseconds. -/
def getFullYear (ms : Int) : Int := (civilFromDays (Int.fdiv ms 86400000)).1

/-- `date.getMonth() + 1`, i.e. the 1-based month (UTC local time). -/
def getMonth1 (ms : Int) : Nat := (civilFromDays (Int.fdiv ms 86400000)).2.1

/-- `date.getDate()`, the day of month (UTC local time). -/
def getDate (ms : Int) : Nat := (civilFromDays (Int.fdiv ms 86400000)).2.2

/-- `EmailFormatter.generateEmailSubject(startDate, endDate)`: `endDate || now`
picked as the target date (a Date object is always truthy, so `none` models a
null argument), rendered `YYYY/MM/DD` with zero-padded month and day in the
fixed subject template.  `startDate` is accepted and ignored, as in the source. -/
def generateEmailSubject (_startDate endDate : Option Int) (now : Int) : String :=
  let targetDate := endDate.getD now
  let year := getFullYear targetDate
  let month := pad2 (getMonth1 targetDate)
  let day := pad2 (getDate targetDate)
  "週次ブックマークダイジェスト - " ++ toString year ++ "/" ++ month ++ "/" ++ day

/-- `EmailFormatter.formatDateRange(startDate, endDate)`. -/
def formatDateRange (startDate endDate : Int) : String :=
  let formatDate := fun (ms : Int) =>
    toString (getFullYear ms) ++ "/" ++ pad2 (getMonth1 ms) ++ "/" ++ pad2 (getDate ms)
  formatDate startDate ++ " - " ++ formatDate endDate

end EmailFormatter

/-! ### Helper lemmas about the batch converter -/

/-- Unrolling the `forEach` fold of `fromRaindropApiResponseArray` over any
suffix of indexed items and any accumulator. -/
lemma batch_foldl (validURL : String → Bool) (now : Int)
    (ps : List (Nat × RawItem)) (acc : List Bookmark × List String) :
    ps.foldl (BookmarkModel.batchStep validURL now) acc =
      (acc.1 ++ ps.filterMap
          (fun pr => (BookmarkModel.fromRaindropApiResponse validURL now pr.2).toOption),
       acc.2 ++ ps.filterMap (fun pr =>
          match BookmarkModel.fromRaindropApiResponse validURL now pr.2 with
          | .ok _ => none
          | .error m => some ("アイテム " ++ toString pr.1 ++ ": " ++ m))) := by
  induction ps generalizing acc with
  | nil => simp
  | cons p ps ih =>
    simp only [List.foldl_cons, List.filterMap_cons]
    rw [ih]
    cases h : BookmarkModel.fromRaindropApiResponse validURL now p.2 <;>
      simp [BookmarkModel.batchStep, h, Except.toOption]

/-- The successful conversions returned by the batch converter, in order. -/
lemma batch_fst (validURL : String → Bool) (now : Int) (items : List RawItem) :
    (BookmarkModel.fromRaindropApiResponseArray validURL now items).1 =
      items.filterMap
        (fun it => (BookmarkModel.fromRaindropApiResponse validURL now it).toOption) := by
  unfold BookmarkModel.fromRaindropApiResponseArray
  rw [batch_foldl]
  have h1 : items.enum.filterMap
      (fun pr => (BookmarkModel.fromRaindropApiResponse validURL now pr.2).toOption) =
      (items.enum.map Prod.snd).filterMap
        (fun it => (BookmarkModel.fromRaindropApiResponse validURL now it).toOption) := by
    rw [List.filterMap_map]; rfl
  simp [h1, List.enum_map_snd]

/-- C1: for every raw item missing its `_id` or its `link`,
`fromRaindropApiResponse` fails (the spec's `MALFORMED_RECORD`); the batch
converter `fromRaindropApiResponseArray` never fails as a whole — it returns
exactly the successfully converted items in their original relative order
(so every valid sibling of a bad item is still produced), and collects one
`アイテム {index}: {reason}` entry per failed item into the single batch-level
warning list. -/
theorem c1_malformed_items_isolated (validURL : String → Bool) (now : Int)
    (items : List RawItem) :
    (∀ it ∈ items, it._id = none ∨ it.link = none →
      ∃ e, BookmarkModel.fromRaindropApiResponse validURL now it = .error e) ∧
    (BookmarkModel.fromRaindropApiResponseArray validURL now items).1 =
      items.filterMap
        (fun it => (BookmarkModel.fromRaindropApiResponse validURL now it).toOption) ∧
    (BookmarkModel.fromRaindropApiResponseArray validURL now items).2 =
      items.enum.filterMap (fun pr =>
        match BookmarkModel.fromRaindropApiResponse validURL now pr.2 with
        | .ok _ => none
        | .error m => some ("アイテム " ++ toString pr.1 ++ ": " ++ m)) := by
  refine ⟨?_, batch_fst validURL now items, ?_⟩
  · intro it _ hbad
    unfold BookmarkModel.fromRaindropApiResponse
    cases hid : it._id with
    | none => exact ⟨_, rfl⟩
    | some idv =>
      rcases hbad with h | h
      · rw [hid] at h; cases h
      · by_cases ht : idv.truthy = true
        · exact ⟨"APIレスポンスにリンクが含まれていません", by simp [h, ht]⟩
        · exact ⟨"APIレスポンスにIDが含まれていません", by simp [ht]⟩
  · unfold BookmarkModel.fromRaindropApiResponseArray
    rw [batch_foldl]
    simp

/-! ### Helper lemmas about the pagination loop -/

namespace RaindropClient

lemma accBooks_succ (validURL : String → Bool) (now : Int)
    (api : Nat → PageResponse) (n : Nat) :
    accBooks validURL now api (n + 1) =
      accBooks validURL now api n ++ pageParsed validURL now api n := by
  simp [accBooks, List.range_succ]

/-- Running the loop from page `page` with the accumulator the earlier pages
produced issues `contRun page fuel + 1` requests. -/
lemma loop_requests (validURL : String → Bool) (now : Int)
    (api : Nat → PageResponse) (hwf : ∀ p, (api p).items ≠ none) :
    ∀ fuel page,
      (getRecentBookmarksLoop validURL now api fuel page
          (accBooks validURL now api page)).requests =
        contRun validURL now api page fuel + 1 := by
  intro fuel
  induction fuel with
  | zero =>
    intro page
    obtain ⟨its, hits⟩ := Option.ne_none_iff_exists'.mp (hwf page)
    simp [getRecentBookmarksLoop, hits, contRun]
  | succ fuel ih =>
    intro page
    obtain ⟨its, hits⟩ := Option.ne_none_iff_exists'.mp (hwf page)
    have hacc : accBooks validURL now api page ++
        (BookmarkModel.fromRaindropApiResponseArray validURL now its).1 =
        accBooks validURL now api (page + 1) := by
      rw [accBooks_succ]
      simp [pageParsed, pageItems, hits]
    by_cases hsc : shouldCont validURL now api page
    · have hb : (its.length == 50 &&
          decide ((accBooks validURL now api (page + 1)).length < (api page).count)) = true := by
        obtain ⟨h1, h2⟩ := hsc
        simp [pageItems, hits] at h1
        simp [h1, h2]
      rw [getRecentBookmarksLoop]
      simp only [hits, hacc, hb]
      simp only [if_true]
      rw [ih (page + 1), contRun, if_pos hsc]
    · have hb : (its.length == 50 &&
          decide ((accBooks validURL now api (page + 1)).length < (api page).count)) = false := by
        rw [shouldCont, not_and_or] at hsc
        rcases hsc with h | h
        · have : its.length ≠ 50 := by simpa [pageItems, hits] using h
          simp [this]
        · simp [Nat.not_lt.mp (by simpa using h)]
      rw [getRecentBookmarksLoop]
      simp only [hits, hacc, hb]
      simp only [Bool.false_eq_true, if_false]
      rw [contRun, if_neg hsc]

/-- The number of page requests of a full `getRecentBookmarks` run against a
well-shaped upstream. -/
lemma getRecentBookmarks_requests (validURL : String → Bool) (now : Int)
    (api : Nat → PageResponse) (hwf : ∀ p, (api p).items ≠ none) :
    (getRecentBookmarks validURL now api).requests =
      contRun validURL now api 0 100 + 1 := by
  have h := loop_requests validURL now api hwf 100 0
  simpa [accBooks, getRecentBookmarks] using h

lemma contRun_eq_zero (validURL : String → Bool) (now : Int)
    (api : Nat → PageResponse) (page : Nat)
    (h : ¬ shouldCont validURL now api page) (fuel : Nat) :
    contRun validURL now api page fuel = 0 := by
  cases fuel with
  | zero => rfl
  | succ fuel => rw [contRun, if_neg h]

/-- `k < contRun page fuel` iff the first `k + 1` pages from `page` all satisfy
the continuation condition and `k` is within the fuel. -/
lemma lt_contRun_iff (validURL : String → Bool) (now : Int)
    (api : Nat → PageResponse) :
    ∀ fuel page k,
      k < contRun validURL now api page fuel ↔
        (k < fuel ∧ ∀ j ≤ k, shouldCont validURL now api (page + j)) := by
  intro fuel
  induction fuel with
  | zero => intro page k; simp [contRun]
  | succ fuel ih =>
    intro page k
    by_cases hsc : shouldCont validURL now api page
    · rw [contRun, if_pos hsc]
      cases k with
      | zero =>
        constructor
        · intro _
          refine ⟨Nat.zero_lt_succ _, ?_⟩
          intro j hj
          have hj0 : j = 0 := Nat.le_zero.mp hj
          simpa [hj0] using hsc
        · intro _
          exact Nat.zero_lt_succ _
      | succ k =>
        rw [Nat.succ_lt_succ_iff, ih (page + 1) k, Nat.succ_lt_succ_iff]
        constructor
        · rintro ⟨hk, hall⟩
          refine ⟨hk, ?_⟩
          intro j hj
          cases j with
          | zero => simpa using hsc
          | succ j =>
            have : page + (j + 1) = page + 1 + j := by omega
            rw [this]
            exact hall j (Nat.succ_le_succ_iff.mp hj)
        · rintro ⟨hk, hall⟩
          refine ⟨hk, ?_⟩
          intro j hj
          have : page + 1 + j = page + (j + 1) := by omega
          rw [this]
          exact hall (j + 1) (Nat.succ_le_succ hj)
    · rw [contRun_eq_zero validURL now api page hsc]
      simp only [Nat.not_lt_zero, false_iff, not_and]
      intro _ hall
      exact hsc (by simpa using hall 0 (Nat.zero_le _))

/-- `k ≤ contRun page fuel` iff the first `k` pages from `page` all satisfy the
continuation condition and `k` is within the fuel bound. -/
lemma le_contRun_iff (validURL : String → Bool) (now : Int)
    (api : Nat → PageResponse) (fuel page k : Nat) :
    k ≤ contRun validURL now api page fuel ↔
      (k ≤ fuel ∧ ∀ j < k, shouldCont validURL now api (page + j)) := by
  cases k with
  | zero => simp
  | succ k =>
    rw [Nat.succ_le_iff, lt_contRun_iff validURL now api fuel page k, Nat.succ_le_iff]
    constructor
    · rintro ⟨h1, h2⟩
      exact ⟨h1, fun j hj => h2 j (Nat.lt_succ_iff.mp hj)⟩
    · rintro ⟨h1, h2⟩
      exact ⟨h1, fun j hj => h2 j (Nat.lt_succ_iff.mpr hj)⟩

/-- Every run issues at most `fuel + 1` requests from any starting state. -/
lemma loop_requests_le (validURL : String → Bool) (now : Int)
    (api : Nat → PageResponse) :
    ∀ fuel page acc,
      (getRecentBookmarksLoop validURL now api fuel page acc).requests ≤ fuel + 1 := by
  intro fuel
  induction fuel with
  | zero =>
    intro page acc
    rw [getRecentBookmarksLoop]
    cases (api page).items <;> simp
  | succ fuel ih =>
    intro page acc
    rw [getRecentBookmarksLoop]
    cases (api page).items with
    | none => simp
    | some its =>
      simp only
      split
      · have := ih (page + 1) (acc ++ (BookmarkModel.fromRaindropApiResponseArray validURL now its).1)
        simpa using Nat.succ_le_succ this
      · simp

/-- The max-page warning fires only on the run that exhausts all its fuel. -/
lemma loop_warned (validURL : String → Bool) (now : Int)
    (api : Nat → PageResponse) :
    ∀ fuel page acc,
      (getRecentBookmarksLoop validURL now api fuel page acc).warned = true →
        (getRecentBookmarksLoop validURL now api fuel page acc).requests = fuel + 1 := by
  intro fuel
  induction fuel with
  | zero =>
    intro page acc
    rw [getRecentBookmarksLoop]
    cases (api page).items <;> simp
  | succ fuel ih =>
    intro page acc
    rw [getRecentBookmarksLoop]
    cases (api page).items with
    | none => simp
    | some its =>
      simp only
      split
      · intro h
        have h2 := ih (page + 1)
          (acc ++ (BookmarkModel.fromRaindropApiResponseArray validURL now its).1)
          (by simpa using h)
        simpa using h2
      · simp

/-- A warned run returns its accumulated array normally (the warning path is a
`break` followed by `return allBookmarks`). -/
lemma loop_warned_ok (validURL : String → Bool) (now : Int)
    (api : Nat → PageResponse) :
    ∀ fuel page acc,
      (getRecentBookmarksLoop validURL now api fuel page acc).warned = true →
        ∃ books,
          (getRecentBookmarksLoop validURL now api fuel page acc).result =
            .ok books := by
  intro fuel
  induction fuel with
  | zero =>
    intro page acc
    rw [getRecentBookmarksLoop]
    cases (api page).items <;> simp
  | succ fuel ih =>
    intro page acc
    rw [getRecentBookmarksLoop]
    cases (api page).items with
    | none => simp
    | some its =>
      simp only
      split
      · intro h
        have h2 := ih (page + 1)
          (acc ++ (BookmarkModel.fromRaindropApiResponseArray validURL now its).1)
          (by simpa using h)
        simpa using h2
      · simp

/-- The converse of `loop_warned`: a run that issues all `fuel + 1` requests
and returns normally must have fired the max-page warning — after the last
page the source increments `page` past the ceiling and warns unconditionally
before breaking, and the only non-warned exits either return early with fewer
requests or propagate the protocol error. -/
lemma loop_cap_warned (validURL : String → Bool) (now : Int)
    (api : Nat → PageResponse) :
    ∀ fuel page acc,
      (getRecentBookmarksLoop validURL now api fuel page acc).requests = fuel + 1 →
      (∃ books,
        (getRecentBookmarksLoop validURL now api fuel page acc).result = .ok books) →
      (getRecentBookmarksLoop validURL now api fuel page acc).warned = true := by
  intro fuel
  induction fuel with
  | zero =>
    intro page acc
    rw [getRecentBookmarksLoop]
    cases (api page).items <;> simp
  | succ fuel ih =>
    intro page acc
    rw [getRecentBookmarksLoop]
    cases (api page).items with
    | none =>
      simp only
      intro hreq
      exact absurd hreq (by simp)
    | some its =>
      simp only
      split
      · intro hreq hok
        have hreq' : (getRecentBookmarksLoop validURL now api fuel (page + 1)
            (acc ++ (BookmarkModel.fromRaindropApiResponseArray validURL now its).1)).requests =
            fuel + 1 := by
          have : (getRecentBookmarksLoop validURL now api fuel (page + 1)
              (acc ++ (BookmarkModel.fromRaindropApiResponseArray validURL now its).1)).requests + 1 =
              fuel + 1 + 1 := by simpa using hreq
          omega
        have h2 := ih (page + 1)
          (acc ++ (BookmarkModel.fromRaindropApiResponseArray validURL now its).1)
          hreq' (by simpa using hok)
        simpa using h2
      · intro hreq
        exact absurd hreq (by simp)

end RaindropClient

/-! ### Concrete data for witnesses and counterexamples -/

/-- A URL well-formedness oracle for concrete runs: accepts strings beginning
`https://` (every URL below is of this shape, and the platform parser accepts
each of them). -/
def demoValidURL : String → Bool := fun s => s.data.take 8 == "https://".data

/-- A raw item that converts successfully. -/
def demoItem : RawItem :=
  { _id := some (.num 1), title := some "t", link := some "https://example.com/a",
    tags := some ["dev"], important := false, created := some (some 1700000000000) }

/-- A raw item the converter rejects (missing `_id` and `link`). -/
def demoBadItem : RawItem :=
  { _id := none, title := some "x", link := none, tags := none,
    important := false, created := none }

namespace RaindropClient

/-- C2 (amended): in every run of `getRecentBookmarks` against a well-shaped
upstream, page `p + 1` is requested iff page `p` was requested, the page-index
ceiling has not been passed, and the continuation condition held after page `p`
— the just-fetched page contained exactly 50 raw items and the accumulated
validated records were strictly fewer than the count reported by *that same*
page's response (the code re-reads `count` from every response rather than
keeping the first page's figure); and when the first page returns fewer than 50
items the fetch stops after page 0 regardless of the reported count. -/
theorem c2_continuation_condition (validURL : String → Bool) (now : Int)
    (api : Nat → PageResponse) (hwf : ∀ p, (api p).items ≠ none) :
    (∀ p : Nat,
      p + 1 < (getRecentBookmarks validURL now api).requests ↔
        (p < (getRecentBookmarks validURL now api).requests ∧ p < 100 ∧
          shouldCont validURL now api p)) ∧
    ((pageItems api 0).length < 50 →
      (getRecentBookmarks validURL now api).requests = 1) := by
  have hreq := getRecentBookmarks_requests validURL now api hwf
  constructor
  · intro p
    rw [hreq]
    constructor
    · intro h
      have hp : p < contRun validURL now api 0 100 := Nat.succ_lt_succ_iff.mp h
      rw [lt_contRun_iff] at hp
      refine ⟨by omega, hp.1, by simpa using hp.2 p le_rfl⟩
    · rintro ⟨h1, h2, h3⟩
      have hp : p ≤ contRun validURL now api 0 100 := Nat.lt_succ_iff.mp h1
      rw [le_contRun_iff] at hp
      have hlt : p < contRun validURL now api 0 100 := by
        rw [lt_contRun_iff]
        refine ⟨h2, ?_⟩
        intro j hj
        rcases Nat.lt_or_ge j p with hjp | hjp
        · exact hp.2 j hjp
        · have hej : j = p := le_antisymm hj hjp
          subst hej
          simpa using h3
      omega
  · intro hlen
    have h0 : ¬ shouldCont validURL now api 0 := by
      rintro ⟨hc, _⟩
      omega
    rw [hreq, contRun_eq_zero validURL now api 0 h0]

/-- The upstream of the C2 counterexample: page 0 holds 50 valid items and
reports count 60, page 1 holds 50 valid items and reports count 300, page 2 is
empty. -/
def apiC2 : Nat → PageResponse := fun p =>
  if p = 0 then { items := some (List.replicate 50 demoItem), count := 60 }
  else if p = 1 then { items := some (List.replicate 50 demoItem), count := 300 }
  else { items := some [], count := 300 }

/-- C2 counterexample: against `apiC2` the code issues 3 page requests — it
requests page 2 although the 100 records accumulated after page 1 are *not*
below the total-count figure 60 reported by the FIRST page's response, because
the loop compares against the just-fetched page's count (300), refuting the
claim's characterisation. -/
theorem c2_counterexample :
    (getRecentBookmarks demoValidURL 0 apiC2).requests = 3 ∧
    (accBooks demoValidURL 0 apiC2 2).length = 100 ∧
    (apiC2 0).count = 60 ∧ ¬ (100 < 60) := by
  exact ⟨by decide, by decide, by decide, by decide⟩

/-- A one-page upstream: 1 valid item, count 1. -/
def apiSmall : Nat → PageResponse := fun _ =>
  { items := some [demoItem], count := 1 }

/-- Witness for C2: a first page with fewer than 50 items stops the fetch after
one request. -/
theorem c2_witness :
    (getRecentBookmarks demoValidURL 0 apiSmall).requests = 1 :=
  (c2_continuation_condition demoValidURL 0 apiSmall
      (fun p => by simp [apiSmall])).2 (by decide)

/-- `ceil(count / pageSize)` for the fixed page size 50. -/
def numPages (c : Nat) : Nat := (c + 49) / 50

/-- C3 (amended): when every page reports the same count `c` with
`1 ≤ c ≤ 5050`, each non-final page holds exactly 50 items, the final page the
remainder, and every item converts successfully, `getRecentBookmarks` issues
exactly `ceil(c / 50)` page requests.  (`c = 0` forces one request anyway, and
`c > 5050` is cut off by the 101-page ceiling, so both are excluded.) -/
theorem c3_ceil_requests (validURL : String → Bool) (now : Int)
    (api : Nat → PageResponse) (c : Nat)
    (hwf : ∀ p, (api p).items ≠ none)
    (hcount : ∀ p, (api p).count = c)
    (hfull : ∀ p, p + 1 < numPages c → (pageItems api p).length = 50)
    (hlast : (pageItems api (numPages c - 1)).length = c - 50 * (numPages c - 1))
    (hvalid : ∀ p, (pageParsed validURL now api p).length = (pageItems api p).length)
    (hc1 : 1 ≤ c) (hc2 : c ≤ 5050) :
    (getRecentBookmarks validURL now api).requests = numPages c := by
  have hN1 : 1 ≤ numPages c := by unfold numPages; omega
  have hN101 : numPages c ≤ 101 := by unfold numPages; omega
  have hbound : 50 * (numPages c - 1) < c ∧ c ≤ 50 * numPages c := by
    unfold numPages; omega
  have haccfull : ∀ n, n < numPages c →
      (accBooks validURL now api n).length = 50 * n := by
    intro n
    induction n with
    | zero => intro _; simp [accBooks]
    | succ n ih =>
      intro hn
      rw [accBooks_succ, List.length_append, ih (by omega), hvalid n, hfull n hn]
      ring
  have haccN : (accBooks validURL now api (numPages c)).length = c := by
    have he : numPages c = (numPages c - 1) + 1 := by omega
    rw [he, accBooks_succ, List.length_append,
      haccfull (numPages c - 1) (by omega), hvalid (numPages c - 1), hlast]
    omega
  have hsc : ∀ j, j + 1 < numPages c → shouldCont validURL now api j := by
    intro j hj
    refine ⟨hfull j hj, ?_⟩
    rw [hcount j, haccfull (j + 1) hj]
    omega
  have hnsc : ¬ shouldCont validURL now api (numPages c - 1) := by
    rintro ⟨_, hlt⟩
    rw [hcount] at hlt
    have he : numPages c - 1 + 1 = numPages c := by omega
    rw [he, haccN] at hlt
    omega
  have hcr : contRun validURL now api 0 100 = numPages c - 1 := by
    have hle : numPages c - 1 ≤ contRun validURL now api 0 100 := by
      rw [le_contRun_iff]
      exact ⟨by omega, fun j hj => by simpa using hsc j (by omega)⟩
    have hge : ¬ (numPages c - 1 < contRun validURL now api 0 100) := by
      intro hlt'
      have := ((lt_contRun_iff validURL now api 100 0 (numPages c - 1)).mp hlt').2
        (numPages c - 1) le_rfl
      exact hnsc (by simpa using this)
    omega
  rw [getRecentBookmarks_requests validURL now api hwf, hcr]
  omega

/-- An upstream reporting count 0 with empty pages. -/
def apiEmpty : Nat → PageResponse := fun _ => { items := some [], count := 0 }

/-- C3 counterexample: with total count 0 — every page reports count 0, there
is no non-final page, and the final page carries the remainder of 0 items —
the code still issues 1 page request, not `ceil(0 / 50) = 0` as the claim
("for every total count") demands. -/
theorem c3_counterexample :
    (getRecentBookmarks demoValidURL 0 apiEmpty).requests = 1 ∧ numPages 0 = 0 :=
  ⟨by decide, by decide⟩

/-- The claim's own example: count 75, a full first page of 50 valid items,
then the remaining 25. -/
def api75 : Nat → PageResponse := fun p =>
  if p = 0 then { items := some (List.replicate 50 demoItem), count := 75 }
  else { items := some (List.replicate 25 demoItem), count := 75 }

/-- Witness for C3: count 75 yields exactly 2 page requests. -/
theorem c3_witness :
    (getRecentBookmarks demoValidURL 0 api75).requests = 2 := by
  have h := c3_ceil_requests demoValidURL 0 api75 75
    (fun p => by unfold api75; split <;> simp)
    (fun p => by unfold api75; split <;> rfl)
    (fun p hp => by
      have hp0 : p = 0 := by
        have : numPages 75 = 2 := by decide
        omega
      subst hp0; decide)
    (by decide)
    (fun p => by
      by_cases hp : p = 0
      · subst hp; decide
      · by_cases hp1 : p = 1
        · subst hp1; decide
        · simp only [pageParsed, pageItems, api75, hp, hp1, if_false]
          decide)
    (by decide) (by decide)
  rw [h]
  decide

/-- C4 (amended): against every upstream behaviour the fetch loop terminates
after at most 101 page requests (pages 0 through 100 — one more than the
claimed 100), and the max-page warning fires exactly on the runs that issue
all 101 requests and return normally: a run whose 101st response is malformed
also issues 101 requests but propagates the protocol error without the
warning. -/
theorem c4_page_cap (validURL : String → Bool) (now : Int)
    (api : Nat → PageResponse) :
    (getRecentBookmarks validURL now api).requests ≤ 101 ∧
    ((getRecentBookmarks validURL now api).warned = true ↔
      ((getRecentBookmarks validURL now api).requests = 101 ∧
       ∃ books, (getRecentBookmarks validURL now api).result = .ok books)) :=
  ⟨loop_requests_le validURL now api 100 0 [],
   ⟨fun h => ⟨loop_warned validURL now api 100 0 [] h,
              loop_warned_ok validURL now api 100 0 [] h⟩,
    fun h => loop_cap_warned validURL now api 100 0 [] h.1 h.2⟩⟩

/-- A misbehaving upstream: every page is full-sized and the reported count is
never reached. -/
def apiRunaway : Nat → PageResponse := fun _ =>
  { items := some (List.replicate 50 demoBadItem), count := 1 }

/-- C4 counterexample: the runaway upstream drives the loop to 101 page
requests — pages 0 through 100, i.e. one more page (and 50 more potential
records) than the claimed unconditional stop after 100 pages — before the
warning fires. -/
theorem c4_counterexample :
    (getRecentBookmarks demoValidURL 0 apiRunaway).requests = 101 ∧
    (getRecentBookmarks demoValidURL 0 apiRunaway).warned = true :=
  ⟨by decide, by decide⟩

end RaindropClient

/-! ### C5 and C6: converter behaviour on tag-less items and on string ids -/

/-- A raw item with no `tags` field at all but every other field valid. -/
def itemNoTags : RawItem :=
  { _id := some (.num 2), title := some "タイトル", link := some "https://example.com/x",
    tags := none, important := false, created := some (some 1700000000000) }

/-- A raw item with an empty `tags` array and every other field valid. -/
def itemEmptyTags : RawItem :=
  { _id := some (.num 3), title := some "タイトル", link := some "https://example.com/x",
    tags := some [], important := false, created := some (some 1700000000000) }

/-- C5: a raw item whose `tags` field is absent makes `fromRaindropApiResponse`
throw (the `TypeError` of reading `.at` of `undefined`) instead of defaulting
the folder, while an item with an *empty* tags array does succeed with the
unsorted placeholder, and an item with tags gets its first tag — the absent
case contradicts the spec and the repository's own tests, which expect the
placeholder. -/
theorem c5_absent_tags_crashes :
    BookmarkModel.fromRaindropApiResponse demoValidURL 0 itemNoTags =
      .error "TypeError: Cannot read properties of undefined (reading at)" ∧
    (BookmarkModel.fromRaindropApiResponse demoValidURL 0 itemEmptyTags).toOption.map
      Bookmark.folder = some "未分類" ∧
    (BookmarkModel.fromRaindropApiResponse demoValidURL 0 demoItem).toOption.map
      Bookmark.folder = some "dev" :=
  ⟨rfl, rfl, rfl⟩

/-- A raw item carrying a non-empty string id, with every other field valid
(the shape the repository's own tests feed to the converter and expect to
succeed). -/
def itemStringId : RawItem :=
  { _id := some (.str "api-id-123"), title := some "APIテストタイトル",
    link := some "https://api-example.com", tags := some ["APIテストフォルダ"],
    important := true, created := some (some 1704067200000) }

/-- C6: a raw item whose id is a non-empty string is rejected by `validate`
(`id は必須の数値です` — the check demands a number), although the spec and the
repository's tests treat string-or-integer ids as valid; a numeric id passes
and is carried unchanged. -/
theorem c6_string_id_rejected :
    BookmarkModel.fromRaindropApiResponse demoValidURL 0 itemStringId =
      .error "ブックマークデータ検証エラー: id は必須の数値です" ∧
    (BookmarkModel.fromRaindropApiResponse demoValidURL 0 demoItem).toOption.map
      Bookmark.id = some (.num 1) :=
  ⟨rfl, rfl⟩

/-! ### C9: the subject line -/

namespace EmailFormatter

lemma getMonth1_bounds (ms : Int) : 1 ≤ getMonth1 ms ∧ getMonth1 ms ≤ 99 := by
  unfold getMonth1 civilFromDays
  set z' : Int := Int.fdiv ms 86400000 + 719468 with hz
  have hfmod := Int.fmod_add_fdiv z' 146097
  have h0 : 0 ≤ Int.fmod z' 146097 := Int.fmod_nonneg' z' (by norm_num)
  have h1 : Int.fmod z' 146097 < 146097 := Int.fmod_lt_of_pos z' (by norm_num)
  have hdoe : (z' - Int.fdiv z' 146097 * 146097).toNat < 146097 := by omega
  set doe : Nat := (z' - Int.fdiv z' 146097 * 146097).toNat with hd
  simp only
  set yoe : Nat := (doe - doe / 1460 + doe / 36524 - doe / 146096) / 365 with hy
  set doy : Nat := doe - (365 * yoe + yoe / 4 - yoe / 100) with hdoy
  set mp : Nat := (5 * doy + 2) / 153 with hmp
  constructor <;> (split <;> omega)

lemma getDate_bounds (ms : Int) : 1 ≤ getDate ms ∧ getDate ms ≤ 31 := by
  unfold getDate civilFromDays
  set z' : Int := Int.fdiv ms 86400000 + 719468 with hz
  have hfmod := Int.fmod_add_fdiv z' 146097
  have h0 : 0 ≤ Int.fmod z' 146097 := Int.fmod_nonneg' z' (by norm_num)
  have h1 : Int.fmod z' 146097 < 146097 := Int.fmod_lt_of_pos z' (by norm_num)
  have hdoe : (z' - Int.fdiv z' 146097 * 146097).toNat < 146097 := by omega
  set doe : Nat := (z' - Int.fdiv z' 146097 * 146097).toNat with hd
  simp only
  set yoe : Nat := (doe - doe / 1460 + doe / 36524 - doe / 146096) / 365 with hy
  set doy : Nat := doe - (365 * yoe + yoe / 4 - yoe / 100) with hdoy
  set mp : Nat := (5 * doy + 2) / 153 with hmp
  omega

lemma pad2_length {n : Nat} (h1 : 1 ≤ n) (h2 : n ≤ 99) : (pad2 n).length = 2 := by
  interval_cases n <;> decide

/-- C9: `generateEmailSubject` renders the fixed subject template around a
single date — the end date when given, else the current time — as
`YYYY/MM/DD` with the month and the day zero-padded to exactly two digits; in
particular a null start date and the end date 2024-03-05T10:00:00Z render as
`2024/03/05`. -/
theorem c9_subject_format (startDate endDate : Option Int) (now : Int) :
    generateEmailSubject startDate endDate now =
      "週次ブックマークダイジェスト - " ++ toString (getFullYear (endDate.getD now))
        ++ "/" ++ pad2 (getMonth1 (endDate.getD now))
        ++ "/" ++ pad2 (getDate (endDate.getD now)) ∧
    (pad2 (getMonth1 (endDate.getD now))).length = 2 ∧
    (pad2 (getDate (endDate.getD now))).length = 2 ∧
    generateEmailSubject none (some 1709632800000) 0 =
      "週次ブックマークダイジェスト - 2024/03/05" := by
  refine ⟨rfl, ?_, ?_, ?_⟩
  · have h := getMonth1_bounds (endDate.getD now)
    exact pad2_length h.1 h.2
  · have h := getDate_bounds (endDate.getD now)
    exact pad2_length h.1 (by omega)
  · decide

end EmailFormatter

/-! ### Helper lemmas about grouping and the stable sorts -/

namespace EmailFormatter

instance : IsTotal Bookmark createdDesc :=
  ⟨fun a b => (le_total (createdKey b) (createdKey a)).imp id id⟩

instance : IsTrans Bookmark createdDesc :=
  ⟨fun _ _ _ h1 h2 => le_trans h2 h1⟩

lemma keysInOrder_aux_mem (bs : List Bookmark) :
    ∀ (acc : List String) (k : String),
      k ∈ bs.foldl
        (fun ks b => if folderKey b ∈ ks then ks else ks ++ [folderKey b]) acc ↔
      k ∈ acc ∨ k ∈ bs.map folderKey := by
  induction bs with
  | nil => intro acc k; simp
  | cons b bs ih =>
    intro acc k
    simp only [List.foldl_cons, List.map_cons, List.mem_cons]
    by_cases hmem : folderKey b ∈ acc
    · rw [if_pos hmem, ih]
      constructor
      · rintro (h | h)
        · exact Or.inl h
        · exact Or.inr (Or.inr h)
      · rintro (h | h | h)
        · exact Or.inl h
        · exact Or.inl (h ▸ hmem)
        · exact Or.inr h
    · rw [if_neg hmem, ih]
      simp only [List.mem_append, List.mem_singleton]
      tauto

lemma keysInOrder_mem (bs : List Bookmark) (k : String) :
    k ∈ keysInOrder bs ↔ k ∈ bs.map folderKey := by
  rw [keysInOrder, keysInOrder_aux_mem]
  simp

lemma keysInOrder_aux_nodup (bs : List Bookmark) :
    ∀ (acc : List String), acc.Nodup →
      (bs.foldl
        (fun ks b => if folderKey b ∈ ks then ks else ks ++ [folderKey b]) acc).Nodup := by
  induction bs with
  | nil => intro acc h; simpa using h
  | cons b bs ih =>
    intro acc hacc
    simp only [List.foldl_cons]
    by_cases hmem : folderKey b ∈ acc
    · rw [if_pos hmem]; exact ih acc hacc
    · rw [if_neg hmem]
      refine ih _ ?_
      simp [List.nodup_append, hacc, hmem]

lemma keysInOrder_nodup (bs : List Bookmark) : (keysInOrder bs).Nodup :=
  keysInOrder_aux_nodup bs [] List.nodup_nil

lemma lookupGroup_nil (k : String) : lookupGroup [] k = [] := rfl

lemma lookupGroup_cons (pr : String × List Bookmark)
    (grouped : List (String × List Bookmark)) (k : String) :
    lookupGroup (pr :: grouped) k =
      if pr.1 == k then pr.2 else lookupGroup grouped k := by
  unfold lookupGroup
  cases h : (pr.1 == k) with
  | false => simp [List.find?_cons, h]
  | true => simp [List.find?_cons, h]

lemma lookupGroup_not_mem (grouped : List (String × List Bookmark)) (k : String)
    (h : k ∉ grouped.map Prod.fst) : lookupGroup grouped k = [] := by
  induction grouped with
  | nil => rfl
  | cons pr g ih =>
    rw [lookupGroup_cons]
    have h1 : pr.1 ≠ k := fun he => h (by simp [he])
    rw [if_neg (by simpa using h1)]
    exact ih fun hm => h (by simp [hm])

lemma map_fst_update (grouped : List (String × List Bookmark)) (k : String)
    (b : Bookmark) :
    ((grouped.map fun pr => if pr.1 == k then (pr.1, pr.2 ++ [b]) else pr).map
        Prod.fst) = grouped.map Prod.fst := by
  rw [List.map_map]
  apply List.map_congr_left
  intro pr _
  by_cases h : (pr.1 == k) = true
  · simp [Function.comp, h]
  · simp [Function.comp, h]

lemma lookupGroup_map_update (k : String) (b : Bookmark) :
    ∀ (grouped : List (String × List Bookmark)) (q : String),
      lookupGroup (grouped.map fun pr =>
          if pr.1 == k then (pr.1, pr.2 ++ [b]) else pr) q =
        lookupGroup grouped q ++
          if q = k ∧ k ∈ grouped.map Prod.fst then [b] else [] := by
  intro grouped
  induction grouped with
  | nil => intro q; simp [lookupGroup_nil]
  | cons pr g ih =>
    intro q
    simp only [List.map_cons]
    by_cases hpk : (pr.1 == k) = true
    · have hpk' : pr.1 = k := by simpa using hpk
      rw [if_pos hpk, lookupGroup_cons]
      by_cases hq : q = k
      · subst hq
        rw [if_pos hpk, lookupGroup_cons, if_pos hpk,
          if_pos ⟨rfl, by simp [hpk']⟩]
      · have hne : ¬ (pr.1 == q) = true := by
          simp only [beq_iff_eq, hpk']
          exact fun he => hq he.symm
        rw [if_neg hne, ih q, lookupGroup_cons, if_neg hne,
          if_neg (fun h => hq h.1), if_neg (fun h => hq h.1)]
    · rw [if_neg hpk, lookupGroup_cons]
      by_cases hpq : (pr.1 == q) = true
      · have hq : q ≠ k := by
          intro he
          subst he
          exact hpk hpq
        rw [if_pos hpq, lookupGroup_cons, if_pos hpq,
          if_neg (fun h => hq h.1)]
        simp
      · rw [if_neg hpq, ih q, lookupGroup_cons, if_neg hpq]
        by_cases hq : q = k
        · subst hq
          have hpk' : pr.1 ≠ q := by simpa using hpk
          by_cases hm : q ∈ g.map Prod.fst
          · rw [if_pos ⟨rfl, hm⟩, if_pos ⟨rfl, by simp [hm]⟩]
          · have hm2 : q ∉ (pr :: g).map Prod.fst := by
              simp only [List.map_cons, List.mem_cons]
              rintro (he | he)
              · exact hpk' he.symm
              · exact hm he
            rw [if_neg (fun h => hm h.2), if_neg (fun h => hm2 h.2)]
        · rw [if_neg (fun h => hq h.1), if_neg (fun h => hq h.1)]

lemma lookupGroup_append (g₁ g₂ : List (String × List Bookmark)) (q : String) :
    lookupGroup (g₁ ++ g₂) q =
      if q ∈ g₁.map Prod.fst then lookupGroup g₁ q else lookupGroup g₂ q := by
  induction g₁ with
  | nil => simp [lookupGroup_nil]
  | cons pr g ih =>
    rw [List.cons_append, lookupGroup_cons]
    by_cases hpq : (pr.1 == q) = true
    · have hpq' : pr.1 = q := by simpa using hpq
      rw [if_pos hpq, if_pos (by simp [hpq']), lookupGroup_cons, if_pos hpq]
    · have hpq' : pr.1 ≠ q := by simpa using hpq
      rw [if_neg hpq, ih]
      by_cases hm : q ∈ g.map Prod.fst
      · rw [if_pos hm, if_pos (by simp [hm]), lookupGroup_cons, if_neg hpq]
      · have hm2 : q ∉ (pr :: g).map Prod.fst := by
          simp only [List.map_cons, List.mem_cons]
          rintro (he | he)
          · exact hpq' he.symm
          · exact hm he
        rw [if_neg hm, if_neg hm2]

/-- What a successful grouping pass computes, from any starting object: the
key list extends by first occurrences, and every key's group extends by the
input-order fiber of that key. -/
lemma buildGrouped_char :
    ∀ (bs : List Bookmark) (grouped g : List (String × List Bookmark)),
      buildGrouped bs grouped = .ok g →
      g.map Prod.fst =
        bs.foldl (fun ks b => if folderKey b ∈ ks then ks else ks ++ [folderKey b])
          (grouped.map Prod.fst) ∧
      ∀ q, lookupGroup g q =
        lookupGroup grouped q ++ bs.filter fun b => folderKey b == q := by
  intro bs
  induction bs with
  | nil =>
    intro grouped g h
    rw [buildGrouped] at h
    simp only [Except.ok.injEq] at h
    subst h
    exact ⟨rfl, fun q => by simp⟩
  | cons b bs ih =>
    intro grouped g h
    rw [buildGrouped] at h
    by_cases hmem : folderKey b ∈ grouped.map Prod.fst
    · rw [groupedInsert, if_pos hmem] at h
      obtain ⟨hk, hl⟩ := ih _ g h
      refine ⟨?_, ?_⟩
      · rw [hk, map_fst_update, List.foldl_cons, if_pos hmem]
      · intro q
        rw [hl q, lookupGroup_map_update, List.filter_cons]
        by_cases hq : q = folderKey b
        · subst hq
          rw [if_pos ⟨rfl, hmem⟩, if_pos (by simp)]
          simp [List.append_assoc]
        · have hne : ¬ (folderKey b == q) = true := by
            simp only [beq_iff_eq]
            exact fun he => hq he.symm
          rw [if_neg (fun hx => hq hx.1), if_neg hne]
          simp
    · by_cases hproto : folderKey b ∈ objectProtoKeys
      · rw [groupedInsert, if_neg hmem, if_pos hproto] at h
        exact absurd h (by simp)
      · rw [groupedInsert, if_neg hmem, if_neg hproto] at h
        obtain ⟨hk, hl⟩ := ih _ g h
        refine ⟨?_, ?_⟩
        · rw [hk, List.foldl_cons, if_neg hmem]
          congr 1
          simp
        · intro q
          rw [hl q, lookupGroup_append, List.filter_cons]
          by_cases hq : q = folderKey b
          · subst hq
            rw [if_neg hmem, lookupGroup_cons, if_pos (by simp),
              lookupGroup_not_mem grouped (folderKey b) hmem, if_pos (by simp)]
            simp
          · have hne : ¬ (folderKey b == q) = true := by
              simp only [beq_iff_eq]
              exact fun he => hq he.symm
            by_cases hm : q ∈ grouped.map Prod.fst
            · rw [if_pos hm, if_neg hne]
            · rw [if_neg hm, lookupGroup_cons,
                if_neg (by simpa using fun he => hq he.symm),
                lookupGroup_not_mem grouped q hm, if_neg hne]
              rfl

/-- A successful grouping pass from the empty object: the keys are the
distinct folder keys in first-occurrence order, and each key's group is its
input-order fiber. -/
lemma buildGrouped_run (bs : List Bookmark)
    (g : List (String × List Bookmark)) (h : buildGrouped bs [] = .ok g) :
    g.map Prod.fst = keysInOrder bs ∧
    ∀ q, lookupGroup g q = bs.filter fun b => folderKey b == q := by
  obtain ⟨hk, hl⟩ := buildGrouped_char bs [] g h
  refine ⟨by simpa [keysInOrder] using hk, fun q => ?_⟩
  have := hl q
  simpa [lookupGroup_nil] using this

/-- The value of every successful `#groupBookmarksByFolder` call is the closed
form `groupedSections`. -/
lemma groupBookmarksByFolder_ok (cmp : String → String → Int)
    (bs : List Bookmark) (groups : List (String × List Bookmark))
    (h : groupBookmarksByFolder cmp bs = .ok groups) :
    groups = groupedSections cmp bs := by
  unfold groupBookmarksByFolder at h
  cases hb : buildGrouped bs [] with
  | error e => rw [hb] at h; exact absurd h (by simp)
  | ok g =>
    rw [hb] at h
    simp only [Except.ok.injEq] at h
    obtain ⟨hk, hl⟩ := buildGrouped_run bs g hb
    rw [← h, groupedSections, hk]
    apply List.map_congr_left
    intro k _
    rw [hl k]

lemma jsObjectKeys_perm (keys : List String) :
    List.Perm (jsObjectKeys keys) keys := by
  unfold jsObjectKeys
  refine List.Perm.trans
    (List.Perm.append_right _ (List.perm_insertionSort _ _)) ?_
  exact List.filter_append_perm _ keys

lemma jsObjectEntries_perm (obj : List (String × List Bookmark)) :
    List.Perm (jsObjectEntries obj) obj := by
  unfold jsObjectEntries
  refine List.Perm.trans
    (List.Perm.append_right _ (List.perm_insertionSort _ _)) ?_
  exact List.filter_append_perm _ obj

/-- With no array-index key present the enumeration order is the creation
order. -/
lemma jsObjectKeys_of_no_index (keys : List String)
    (h : ∀ k ∈ keys, isArrayIndex k = false) : jsObjectKeys keys = keys := by
  unfold jsObjectKeys
  have h1 : keys.filter isArrayIndex = [] := by
    rw [List.filter_eq_nil_iff]
    intro k hk
    simp [h k hk]
  have h2 : (keys.filter fun k => !isArrayIndex k) = keys := by
    rw [List.filter_eq_self]
    intro k hk
    simp [h k hk]
  rw [h1, h2]
  rfl

/-- With no array-index key present `Object.entries` enumerates the pairs in
creation order. -/
lemma jsObjectEntries_of_no_index (obj : List (String × List Bookmark))
    (h : ∀ pr ∈ obj, isArrayIndex pr.1 = false) : jsObjectEntries obj = obj := by
  unfold jsObjectEntries
  have h1 : (obj.filter fun pr => isArrayIndex pr.1) = [] := by
    rw [List.filter_eq_nil_iff]
    intro pr hpr
    simp [h pr hpr]
  have h2 : (obj.filter fun pr => !isArrayIndex pr.1) = obj := by
    rw [List.filter_eq_self]
    intro pr hpr
    simp [h pr hpr]
  rw [h1, h2]
  rfl

/-- Filtering through an `orderedInsert` behaves like filtering through a cons,
provided everything the predicate keeps may sit after the inserted element. -/
lemma filter_orderedInsert {α : Type} (r : α → α → Prop) [DecidableRel r]
    (p : α → Bool) (a : α) :
    ∀ l : List α, (p a = true → ∀ z ∈ l, p z = true → r a z) →
      (List.orderedInsert r a l).filter p =
        if p a = true then a :: l.filter p else l.filter p := by
  intro l
  induction l with
  | nil =>
    intro _
    by_cases hpa : p a = true <;> simp [List.orderedInsert, hpa]
  | cons b l ih =>
    intro h
    rw [List.orderedInsert]
    by_cases hr : r a b
    · rw [if_pos hr]
      simp [List.filter_cons]
    · rw [if_neg hr]
      simp only [List.filter_cons]
      rw [ih (fun hpa z hz hpz => h hpa z (List.mem_cons_of_mem b hz) hpz)]
      by_cases hpa : p a = true
      · have hpb : ¬ p b = true :=
          fun hpb => hr (h hpa b (List.mem_cons_self b l) hpb)
        simp [hpa, hpb]
      · simp [hpa]

/-- Stability of `insertionSort`: a filter on which the order relation is
symmetric (e.g. the class of one sort key) is returned in input order. -/
lemma filter_insertionSort {α : Type} (r : α → α → Prop) [DecidableRel r]
    (p : α → Bool) :
    ∀ l : List α, (∀ a ∈ l, ∀ b ∈ l, p a = true → p b = true → r a b) →
      (List.insertionSort r l).filter p = l.filter p := by
  intro l
  induction l with
  | nil => intro _; rfl
  | cons a l ih =>
    intro h
    rw [List.insertionSort]
    rw [filter_orderedInsert r p a _ ?side]
    case side =>
      intro hpa z hz hpz
      exact h a (List.mem_cons_self a l)
        z (List.mem_cons_of_mem a ((List.mem_insertionSort r).mp hz)) hpa hpz
    rw [ih (fun x hx y hy => h x (List.mem_cons_of_mem a hx) y (List.mem_cons_of_mem a hy))]
    by_cases hpa : p a = true <;> simp [hpa, List.filter_cons]

/-- Fibering a list over a duplicate-free covering list of keys is a
permutation of the list. -/
lemma flatten_filter_perm :
    ∀ (ks : List String) (bs : List Bookmark), ks.Nodup →
      (∀ b ∈ bs, folderKey b ∈ ks) →
      List.Perm (ks.map (fun k => bs.filter (fun b => folderKey b == k))).flatten bs := by
  intro ks
  induction ks with
  | nil =>
    intro bs _ hcov
    have hbs : bs = [] := by
      cases bs with
      | nil => rfl
      | cons b bs => exact absurd (hcov b (List.mem_cons_self b bs)) (List.not_mem_nil _)
    simp [hbs]
  | cons k ks ih =>
    intro bs hnd hcov
    simp only [List.map_cons, List.flatten_cons]
    set bs' := bs.filter (fun b => !(folderKey b == k)) with hbs'
    have hmap : ks.map (fun k' => bs.filter (fun b => folderKey b == k')) =
        ks.map (fun k' => bs'.filter (fun b => folderKey b == k')) := by
      apply List.map_congr_left
      intro k' hk'
      have hkk' : k ≠ k' := fun he => (List.nodup_cons.mp hnd).1 (he ▸ hk')
      rw [hbs', List.filter_filter]
      apply List.filter_congr
      intro b _
      cases hfb : (folderKey b == k') with
      | false => simp
      | true =>
        have hb : folderKey b = k' := by simpa using hfb
        simp [hb, Ne.symm hkk']
    rw [hmap]
    have hcov' : ∀ b ∈ bs', folderKey b ∈ ks := by
      intro b hb
      rw [hbs'] at hb
      have hmem := List.mem_filter.mp hb
      have h1 := hcov b hmem.1
      have h2 : folderKey b ≠ k := by simpa using hmem.2
      simp only [List.mem_cons] at h1
      exact h1.resolve_left h2
    have hperm := ih bs' (List.nodup_cons.mp hnd).2 hcov'
    refine List.Perm.trans (hperm.append_left (bs.filter (fun b => folderKey b == k))) ?_
    rw [hbs']
    exact List.filter_append_perm _ bs

/-- The section keys of the successful grouping are the distinct folder keys
in enumeration order, sorted by the comparator. -/
lemma group_keys_eq (cmp : String → String → Int) (bs : List Bookmark) :
    (groupedSections cmp bs).map Prod.fst =
      List.insertionSort (keyLe cmp) (jsObjectKeys (keysInOrder bs)) := by
  rw [groupedSections, List.map_map]
  exact List.map_id _

lemma group_keys_nodup (cmp : String → String → Int) (bs : List Bookmark) :
    ((groupedSections cmp bs).map Prod.fst).Nodup := by
  rw [group_keys_eq]
  exact ((List.perm_insertionSort (keyLe cmp) _).nodup_iff).mpr
    (((jsObjectKeys_perm _).nodup_iff).mpr (keysInOrder_nodup bs))

lemma mem_group_keys (cmp : String → String → Int) (bs : List Bookmark)
    (k : String) :
    k ∈ (groupedSections cmp bs).map Prod.fst ↔ k ∈ bs.map folderKey := by
  rw [group_keys_eq, List.mem_insertionSort, (jsObjectKeys_perm _).mem_iff,
    keysInOrder_mem]

/-- C7 (amended): when no folder key is an ECMAScript array-index string, a
successful `#groupBookmarksByFolder` call yields its sections already in the
locale comparator's order — `Object.entries` leaves the comparator-sorted
order untouched, the key list is sorted, and any strictly-earlier folder name
gets the earlier section — and orders each section's records by `createdAt`
descending with equal-timestamp ties kept in original input order (each
section is a stable permutation of the input-order fiber of its folder).
Array-index folder keys are instead hoisted to the front in ascending numeric
order by the object enumeration rule, and a folder name colliding with an
`Object.prototype` property makes the grouping throw — the counterexample. -/
theorem c7_section_and_record_order (cmp : String → String → Int)
    (bs : List Bookmark) (groups : List (String × List Bookmark))
    (htot : ∀ a b, cmp a b ≤ 0 ∨ cmp b a ≤ 0)
    (htrans : ∀ a b c, cmp a b ≤ 0 → cmp b c ≤ 0 → cmp a c ≤ 0)
    (hidx : ∀ b ∈ bs, isArrayIndex (folderKey b) = false)
    (hok : groupBookmarksByFolder cmp bs = .ok groups) :
    jsObjectEntries groups = groups ∧
    (groups.map Prod.fst).Sorted (keyLe cmp) ∧
    (∀ a b, a ∈ groups.map Prod.fst → b ∈ groups.map Prod.fst →
      ¬ (cmp b a ≤ 0) →
      (groups.map Prod.fst).indexOf a < (groups.map Prod.fst).indexOf b) ∧
    (∀ k l, (k, l) ∈ groups →
      l.Sorted createdDesc ∧
      List.Perm l (bs.filter (fun b => folderKey b == k)) ∧
      (∀ t : Int, l.filter (fun b => createdKey b == t) =
        (bs.filter (fun b => folderKey b == k)).filter
          (fun b => createdKey b == t))) := by
  haveI : IsTotal String (keyLe cmp) := ⟨htot⟩
  haveI : IsTrans String (keyLe cmp) := ⟨fun a b c => htrans a b c⟩
  have hG := groupBookmarksByFolder_ok cmp bs groups hok
  subst hG
  have hkidx : ∀ k ∈ keysInOrder bs, isArrayIndex k = false := by
    intro k hk
    rw [keysInOrder_mem] at hk
    obtain ⟨b, hb, rfl⟩ := List.mem_map.mp hk
    exact hidx b hb
  have hkeys : (groupedSections cmp bs).map Prod.fst =
      List.insertionSort (keyLe cmp) (keysInOrder bs) := by
    rw [group_keys_eq, jsObjectKeys_of_no_index _ hkidx]
  have hsorted : ((groupedSections cmp bs).map Prod.fst).Sorted (keyLe cmp) := by
    rw [hkeys]
    exact List.sorted_insertionSort (keyLe cmp) (keysInOrder bs)
  have hnd : ((groupedSections cmp bs).map Prod.fst).Nodup :=
    group_keys_nodup cmp bs
  refine ⟨?_, hsorted, ?_, ?_⟩
  · apply jsObjectEntries_of_no_index
    intro pr hpr
    have hk : pr.1 ∈ (groupedSections cmp bs).map Prod.fst :=
      List.mem_map_of_mem Prod.fst hpr
    rw [mem_group_keys] at hk
    obtain ⟨b, hb, he⟩ := List.mem_map.mp hk
    rw [← he]
    exact hidx b hb
  · intro a b ha hb hba
    set S := (groupedSections cmp bs).map Prod.fst with hS
    have hne : a ≠ b := by
      rintro rfl
      rcases htot a a with h | h <;> exact hba h
    have hia : S.indexOf a < S.length := List.indexOf_lt_length.mpr ha
    have hib : S.indexOf b < S.length := List.indexOf_lt_length.mpr hb
    rcases lt_trichotomy (S.indexOf a) (S.indexOf b) with h | h | h
    · exact h
    · exfalso
      apply hne
      have ha' : S.get ⟨S.indexOf a, hia⟩ = a := List.indexOf_get hia
      have hb' : S.get ⟨S.indexOf b, hib⟩ = b := List.indexOf_get hib
      rw [← ha', ← hb']
      congr 1
      exact Fin.ext h
    · exfalso
      have hrel := List.Sorted.rel_get_of_lt hsorted
        (a := ⟨S.indexOf b, hib⟩) (b := ⟨S.indexOf a, hia⟩) (Fin.mk_lt_mk.mpr h)
      rw [List.indexOf_get hib, List.indexOf_get hia] at hrel
      exact hba hrel
  · intro k l hkl
    rw [groupedSections] at hkl
    obtain ⟨k', _, heq⟩ := List.mem_map.mp hkl
    obtain ⟨hk1, hk2⟩ := Prod.mk.injEq .. ▸ heq
    subst hk1
    subst hk2
    refine ⟨List.sorted_insertionSort _ _, List.perm_insertionSort _ _, ?_⟩
    intro t
    apply filter_insertionSort
    intro a _ b _ hpa hpb
    have ha : createdKey a = t := by simpa using hpa
    have hb : createdKey b = t := by simpa using hpb
    unfold createdDesc
    rw [ha, hb]

/-- Strict lexicographic comparison of character lists by code point. -/
def codepointLt : List Char → List Char → Bool
  | _, [] => false
  | [], _ :: _ => true
  | a :: as, b :: bs =>
    if a.toNat < b.toNat then true
    else if b.toNat < a.toNat then false
    else codepointLt as bs

lemma codepointLt_irrefl : ∀ l, codepointLt l l = false := by
  intro l
  induction l with
  | nil => rfl
  | cons a l ih => simp [codepointLt, ih]

lemma codepointLt_asymm : ∀ l m, codepointLt l m = true → codepointLt m l = false := by
  intro l
  induction l with
  | nil =>
    intro m _
    cases m with
    | nil => rfl
    | cons b bs => rfl
  | cons a as ih =>
    intro m h
    cases m with
    | nil => exact absurd h (by simp [codepointLt])
    | cons b bs =>
      simp only [codepointLt] at h ⊢
      by_cases hab : a.toNat < b.toNat
      · simp [hab, Nat.lt_asymm hab]
      · by_cases hba : b.toNat < a.toNat
        · simp [hab, hba] at h
        · simp only [hab, if_false, hba, if_true, if_false] at h ⊢
          simp [hab, hba, ih bs h]

lemma codepointLt_trans : ∀ l m n, codepointLt l m = true → codepointLt m n = true →
    codepointLt l n = true := by
  intro l
  induction l with
  | nil =>
    intro m n h1 h2
    cases n with
    | nil =>
      cases m with
      | nil => exact h1
      | cons b bs => exact absurd h2 (by simp [codepointLt])
    | cons c cs => rfl
  | cons a as ih =>
    intro m n h1 h2
    cases m with
    | nil => exact absurd h1 (by simp [codepointLt])
    | cons b bs =>
      cases n with
      | nil => exact absurd h2 (by simp [codepointLt])
      | cons c cs =>
        simp only [codepointLt] at h1 h2 ⊢
        by_cases hab : a.toNat < b.toNat
        · by_cases hbc : b.toNat < c.toNat
          · simp [Nat.lt_trans hab hbc]
          · by_cases hcb : c.toNat < b.toNat
            · simp [hbc, hcb] at h2
            · have hac : a.toNat < c.toNat := by omega
              simp [hac]
        · by_cases hba : b.toNat < a.toNat
          · simp [hab, hba] at h1
          · by_cases hbc : b.toNat < c.toNat
            · have hac : a.toNat < c.toNat := by omega
              simp [hac]
            · by_cases hcb : c.toNat < b.toNat
              · simp [hbc, hcb] at h2
              · have h1' : codepointLt as bs = true := by simpa [hab, hba] using h1
                have h2' : codepointLt bs cs = true := by simpa [hbc, hcb] using h2
                have hac : ¬ a.toNat < c.toNat := by omega
                have hca : ¬ c.toNat < a.toNat := by omega
                simp [hac, hca, ih bs cs h1' h2']

lemma codepointLt_conn : ∀ l m, codepointLt l m = false → codepointLt m l = false →
    l = m := by
  intro l
  induction l with
  | nil =>
    intro m h1 _
    cases m with
    | nil => rfl
    | cons b bs => exact absurd h1 (by simp [codepointLt])
  | cons a as ih =>
    intro m h1 h2
    cases m with
    | nil => exact absurd h2 (by simp [codepointLt])
    | cons b bs =>
      simp only [codepointLt] at h1 h2
      by_cases hab : a.toNat < b.toNat
      · simp [hab] at h1
      · by_cases hba : b.toNat < a.toNat
        · simp [hba, hab] at h2
        · have hab' : a.toNat = b.toNat := by omega
          have hc : a = b := Char.eq_of_val_eq (UInt32.toNat.inj hab')
          have h1' : codepointLt as bs = false := by simpa [hab, hba] using h1
          have h2' : codepointLt bs as = false := by simpa [hab, hba] using h2
          rw [hc, ih bs h1' h2']

/-- The deterministic code-point comparator (the spec's documented collation
fallback); on the concrete pair the claim names it agrees with the ICU ja
collation — both place `コーディング` before `生成AI`. -/
def cmpCodepoint : String → String → Int := fun a b =>
  if codepointLt a.data b.data then -1 else if codepointLt b.data a.data then 1 else 0

lemma cmpCodepoint_nonpos_iff (a b : String) :
    cmpCodepoint a b ≤ 0 ↔ codepointLt b.data a.data = false := by
  unfold cmpCodepoint
  by_cases h1 : codepointLt a.data b.data
  · simp [h1, codepointLt_asymm _ _ h1]
  · by_cases h2 : codepointLt b.data a.data <;> simp [h1, h2]

lemma cmpCodepoint_total (a b : String) :
    cmpCodepoint a b ≤ 0 ∨ cmpCodepoint b a ≤ 0 := by
  rw [cmpCodepoint_nonpos_iff, cmpCodepoint_nonpos_iff]
  by_cases h : codepointLt b.data a.data
  · exact Or.inr (codepointLt_asymm _ _ h)
  · exact Or.inl (by simpa using h)

lemma cmpCodepoint_trans (a b c : String) :
    cmpCodepoint a b ≤ 0 → cmpCodepoint b c ≤ 0 → cmpCodepoint a c ≤ 0 := by
  rw [cmpCodepoint_nonpos_iff, cmpCodepoint_nonpos_iff, cmpCodepoint_nonpos_iff]
  intro h1 h2
  by_cases hca : codepointLt c.data a.data
  · by_cases hbc : codepointLt b.data c.data
    · exact absurd (codepointLt_trans _ _ _ hbc hca) (by simp [h1])
    · have he : b.data = c.data := codepointLt_conn _ _ (by simpa using hbc) h2
      rw [← he] at hca
      exact absurd hca (by simp [h1])
  · simpa using hca

/-- A record for the formatter claims. -/
def mkRecord (t u f : String) (fav : Bool) (c : Int) : Bookmark :=
  { id := .num 1, title := t, url := u, folder := f, isFavorite := fav,
    createdAt := some c }

/-- The four-record fixture of the repository's formatter tests (two folders,
two favorites). -/
def demoBookmarks : List Bookmark :=
  [mkRecord "spec-workflow" "https://example.com/spec-workflow" "生成AI" false 100,
   mkRecord "serena" "https://example.com/serena" "生成AI" true 200,
   mkRecord "short-code" "https://example.com/short-code" "コーディング" false 300,
   mkRecord "typescript" "https://example.com/typescript" "コーディング" true 50]

/-- Witness for C7 at the code-point comparator and the test fixture: the
grouping succeeds and the `コーディング` section comes before the `生成AI`
section. -/
theorem c7_witness :
    ((groupedSections cmpCodepoint demoBookmarks).map Prod.fst).indexOf
        "コーディング" <
      ((groupedSections cmpCodepoint demoBookmarks).map Prod.fst).indexOf
        "生成AI" :=
  (c7_section_and_record_order cmpCodepoint demoBookmarks
      (groupedSections cmpCodepoint demoBookmarks)
      cmpCodepoint_total cmpCodepoint_trans (by decide) (by rfl)).2.2.1
    "コーディング" "生成AI" (by decide) (by decide) (by decide)

/-- Two records whose folder names are canonical array-index strings, and one
whose folder name is a property inherited from `Object.prototype`. -/
def numericFolderBookmarks : List Bookmark :=
  [mkRecord "a" "https://example.com/a" "2" false 100,
   mkRecord "b" "https://example.com/b" "10" false 200]

/-- A record whose folder name collides with a property of
`Object.prototype`. -/
def protoFolderRecord : Bookmark :=
  mkRecord "c" "https://example.com/c" "constructor" false 0

/-- C7 counterexample: under the code-point comparator (which agrees with the
ja collation here: `"10"` sorts strictly before `"2"`), the rendered body
places the `h4. 2` section before the `h4. 10` section — `Object.entries`
hoists array-index keys in ascending numeric order, overriding the
comparator-sorted order — so the sections are not in collation order; and a
record whose folder name is `constructor` makes the formatter throw the
grouping `TypeError` instead of rendering any body. -/
theorem c7_counterexample :
    cmpCodepoint "10" "2" < 0 ∧
    formatBookmarksToEmailBody cmpCodepoint numericFolderBookmarks none true =
      .ok ("今週のブックマークダイジェスト\n\n合計 2 件のブックマークが見つかりました。\n\nh4. 2\n* \"a\":https://example.com/a\n\nh4. 10\n* \"b\":https://example.com/b") ∧
    formatBookmarksToEmailBody cmpCodepoint [protoFolderRecord] none true =
      .error "TypeError: grouped[folderName].push is not a function" :=
  ⟨by decide, rfl, rfl⟩

/-! ### String-counting helpers for the rendered body -/

/-- Occurrences of the favorite-marker character in a string. -/
def starCount (s : String) : Nat := s.data.count '★'

/-- The tail of a separator join: one copy of the separator in front of every
element. -/
def sepTail (s : String) : List String → String
  | [] => ""
  | a :: as => s ++ a ++ sepTail s as

lemma intercalate_go_eq (s : String) :
    ∀ (as : List String) (acc : String),
      String.intercalate.go acc s as = acc ++ sepTail s as := by
  intro as
  induction as with
  | nil => intro acc; simp [String.intercalate.go, sepTail]
  | cons a as ih =>
    intro acc
    rw [String.intercalate.go, ih]
    simp [sepTail, String.append_assoc]

lemma intercalate_cons (s a : String) (as : List String) :
    String.intercalate s (a :: as) = a ++ sepTail s as := by
  show String.intercalate.go a s as = a ++ sepTail s as
  exact intercalate_go_eq s as a

lemma starCount_append (a b : String) :
    starCount (a ++ b) = starCount a + starCount b := by
  simp [starCount]

lemma starCount_sepTail (s : String) (hs : starCount s = 0) :
    ∀ as : List String, starCount (sepTail s as) = (as.map starCount).sum := by
  intro as
  induction as with
  | nil => rfl
  | cons a as ih => simp [sepTail, starCount_append, hs, ih]

lemma starCount_intercalate (s : String) (hs : starCount s = 0) (l : List String) :
    starCount (String.intercalate s l) = (l.map starCount).sum := by
  cases l with
  | nil => rfl
  | cons a as => rw [intercalate_cons, starCount_append, starCount_sepTail s hs]; simp

lemma digitChar_isDigit {m : Nat} (h : m < 10) : (Nat.digitChar m).isDigit = true := by
  interval_cases m <;> decide

lemma toDigitsCore_isDigit :
    ∀ (fuel n : Nat) (acc : List Char), (∀ c ∈ acc, c.isDigit = true) →
      ∀ c ∈ Nat.toDigitsCore 10 fuel n acc, c.isDigit = true := by
  intro fuel
  induction fuel with
  | zero =>
    intro n acc hacc c hc
    exact hacc c (by simpa [Nat.toDigitsCore] using hc)
  | succ fuel ih =>
    intro n acc hacc c hc
    simp only [Nat.toDigitsCore] at hc
    have hmem : ∀ x ∈ Nat.digitChar (n % 10) :: acc, x.isDigit = true := by
      intro x hx
      rcases List.mem_cons.mp hx with h | h
      · exact h ▸ digitChar_isDigit (Nat.mod_lt n (by norm_num))
      · exact hacc x h
    by_cases h : n / 10 = 0
    · rw [if_pos h] at hc
      exact hmem c hc
    · rw [if_neg h] at hc
      exact ih (n / 10) _ hmem c hc

/-- Every character of the decimal rendering of a natural number is a digit. -/
lemma repr_all_digits (n : Nat) : ∀ c ∈ (Nat.repr n).data, c.isDigit = true := by
  have he : (Nat.repr n).data = Nat.toDigitsCore 10 (n + 1) n [] := rfl
  rw [he]
  exact toDigitsCore_isDigit (n + 1) n [] (by simp)

lemma starCount_repr (n : Nat) : starCount (Nat.repr n) = 0 := by
  rw [starCount, List.count_eq_zero]
  intro hmem
  exact absurd (repr_all_digits n _ hmem) (by decide)

lemma starCount_rangeSuffix (dr : Option String)
    (h : ∀ r, dr = some r → starCount r = 0) :
    starCount (rangeSuffix dr) = 0 := by
  cases dr with
  | none => rfl
  | some r =>
    have hr0 := h r rfl
    show starCount (if r = "" then "" else " (" ++ r ++ ")") = 0
    by_cases he : r = ""
    · rw [if_pos he]
      rfl
    · rw [if_neg he]
      simp only [starCount_append]
      have h1 : starCount " (" = 0 := rfl
      have h2 : starCount ")" = 0 := rfl
      omega

lemma starCount_line (b : Bookmark) (ht : starCount b.title = 0)
    (hu : starCount b.url = 0) :
    starCount (formatSingleBookmark b) = if b.isFavorite then 1 else 0 := by
  have c1 : starCount "* \"" = 0 := rfl
  have c2 : starCount "\":" = 0 := rfl
  have c3 : starCount " %\x7bcolor: red\x7d★%" = 1 := rfl
  unfold formatSingleBookmark
  cases hf : b.isFavorite <;>
    simp only [hf, if_true, if_false, Bool.false_eq_true, starCount_append] <;>
    omega

lemma formatFolderSection_foldl (l : List Bookmark) :
    ∀ acc : String,
      l.foldl (fun s b => s ++ "\n" ++ formatSingleBookmark b) acc =
        acc ++ sepTail "\n" (l.map formatSingleBookmark) := by
  induction l with
  | nil => intro acc; simp [sepTail]
  | cons b l ih =>
    intro acc
    simp only [List.foldl_cons, List.map_cons]
    rw [ih]
    simp [sepTail, String.append_assoc]

lemma formatFolderSection_eq (pr : String × List Bookmark) :
    formatFolderSection pr =
      ("h4. " ++ pr.1) ++ sepTail "\n" (pr.2.map formatSingleBookmark) := by
  unfold formatFolderSection
  exact formatFolderSection_foldl pr.2 _

lemma sum_indicator_countP (l : List Bookmark) :
    (l.map (fun b => if b.isFavorite then 1 else 0)).sum =
      l.countP (fun b => b.isFavorite) := by
  induction l with
  | nil => rfl
  | cons b l ih =>
    cases hf : b.isFavorite with
    | false => simp [List.countP_cons, hf, ih]
    | true =>
      simp [List.countP_cons, hf, ih]
      omega

lemma starCount_section (pr : String × List Bookmark) (hk : starCount pr.1 = 0)
    (hl : ∀ b ∈ pr.2, starCount b.title = 0 ∧ starCount b.url = 0) :
    starCount (formatFolderSection pr) = pr.2.countP (fun b => b.isFavorite) := by
  have hn : starCount "\n" = 0 := rfl
  have hh : starCount "h4. " = 0 := rfl
  rw [formatFolderSection_eq, starCount_append, starCount_append,
    starCount_sepTail _ hn, List.map_map]
  have hcongr : pr.2.map (starCount ∘ formatSingleBookmark) =
      pr.2.map (fun b => if b.isFavorite then 1 else 0) :=
    List.map_congr_left fun b hb =>
      starCount_line b (hl b hb).1 (hl b hb).2
  rw [hcongr, sum_indicator_countP, hk, hh]
  omega

lemma flatten_perm_congr {α β : Type} (l : List α) (f g : α → List β)
    (h : ∀ a ∈ l, List.Perm (f a) (g a)) :
    List.Perm (l.map f).flatten (l.map g).flatten := by
  induction l with
  | nil => rfl
  | cons a l ih =>
    simp only [List.map_cons, List.flatten_cons]
    exact List.Perm.append (h a (List.mem_cons_self a l))
      (ih fun x hx => h x (List.mem_cons_of_mem a hx))

/-- The records of all sections together are a permutation of the input. -/
lemma group_flatten_perm (cmp : String → String → Int) (bs : List Bookmark) :
    List.Perm ((groupedSections cmp bs).map Prod.snd).flatten bs := by
  have hmap : (groupedSections cmp bs).map Prod.snd =
      (List.insertionSort (keyLe cmp) (jsObjectKeys (keysInOrder bs))).map
        (fun k => List.insertionSort createdDesc
          (bs.filter (fun b => folderKey b == k))) := by
    rw [groupedSections, List.map_map]
    rfl
  rw [hmap]
  refine List.Perm.trans
    (flatten_perm_congr _ _ _ fun k _ => List.perm_insertionSort _ _) ?_
  apply flatten_filter_perm
  · exact ((List.perm_insertionSort (keyLe cmp) _).nodup_iff).mpr
      (((jsObjectKeys_perm _).nodup_iff).mpr (keysInOrder_nodup bs))
  · intro b hb
    rw [(List.mem_insertionSort (keyLe cmp)), (jsObjectKeys_perm _).mem_iff,
      keysInOrder_mem]
    exact List.mem_map_of_mem folderKey hb

/-- The folder keys of the grouping all come from the records. -/
lemma group_key_from_record (cmp : String → String → Int) (bs : List Bookmark)
    {k : String} (hk : k ∈ (groupedSections cmp bs).map Prod.fst) :
    ∃ b ∈ bs, folderKey b = k := by
  rw [mem_group_keys] at hk
  obtain ⟨b, hb, he⟩ := List.mem_map.mp hk
  exact ⟨b, hb, he⟩

/-- Every rendered section is a section of the successful grouping. -/
lemma mem_renderedSections (cmp : String → String → Int) (bs : List Bookmark)
    {pr : String × List Bookmark} (h : pr ∈ renderedSections cmp bs) :
    pr ∈ groupedSections cmp bs :=
  (jsObjectEntries_perm _).mem_iff.mp h

/-- C8: a favorite record renders as the `* "Title":URL` line followed by a
single space and the exact token `%{color: red}★%`; a non-favorite record
renders without it; and when no input field contains `★`, the number of `★`
characters in the whole rendered body — whenever the formatter renders one,
i.e. on every run that does not throw in the grouping — equals the number of
favorite records, so the marker appears nowhere else. -/
theorem c8_favorite_marker (cmp : String → String → Int) (bs : List Bookmark)
    (dateRange : Option String) (includeHeader : Bool) (body : String)
    (hb : ∀ b ∈ bs, starCount b.title = 0 ∧ starCount b.url = 0 ∧
      starCount b.folder = 0)
    (hr : ∀ r, dateRange = some r → starCount r = 0)
    (hok : formatBookmarksToEmailBody cmp bs dateRange includeHeader = .ok body) :
    (∀ b : Bookmark, b.isFavorite = true → formatSingleBookmark b =
      "* \"" ++ b.title ++ "\":" ++ b.url ++ " %\x7bcolor: red\x7d★%") ∧
    (∀ b : Bookmark, b.isFavorite = false → formatSingleBookmark b =
      "* \"" ++ b.title ++ "\":" ++ b.url) ∧
    starCount body = (bs.filter (fun b => b.isFavorite)).length := by
  refine ⟨?_, ?_, ?_⟩
  · intro b h
    simp [formatSingleBookmark, h]
  · intro b h
    simp [formatSingleBookmark, h]
  · have hrange : starCount (rangeSuffix dateRange) = 0 :=
      starCount_rangeSuffix dateRange hr
    unfold formatBookmarksToEmailBody at hok
    by_cases hlen : bs.length = 0
    · rw [if_pos hlen] at hok
      simp only [Except.ok.injEq] at hok
      subst hok
      have hnil : bs = [] := List.length_eq_zero.mp hlen
      subst hnil
      unfold formatEmptyMessage
      simp only [starCount_append, hrange]
      rfl
    · rw [if_neg hlen] at hok
      cases hg : groupBookmarksByFolder cmp bs with
      | error e => rw [hg] at hok; exact absurd hok (by simp)
      | ok g =>
        rw [hg] at hok
        simp only [Except.ok.injEq] at hok
        subst hok
        have hG := groupBookmarksByFolder_ok cmp bs g hg
        subst hG
        have hrs : jsObjectEntries (groupedSections cmp bs) =
            renderedSections cmp bs := rfl
        rw [hrs]
        rw [starCount_append, starCount_intercalate _ (by rfl), List.map_map]
        have hhead : starCount
            (if includeHeader then formatHeader bs.length dateRange ++ "\n\n" else "") = 0 := by
          cases includeHeader with
          | false => rfl
          | true =>
            simp only [if_true]
            unfold formatHeader
            simp only [starCount_append, hrange]
            have h1 : starCount "今週のブックマークダイジェスト" = 0 := rfl
            have h2 : starCount "\n\n合計 " = 0 := rfl
            have h3 : starCount " 件のブックマークが見つかりました。" = 0 := rfl
            have h4 : starCount "\n\n" = 0 := rfl
            have h5 : starCount (toString bs.length) = 0 := starCount_repr bs.length
            omega
        rw [hhead]
        have hcongr : (renderedSections cmp bs).map
              (starCount ∘ formatFolderSection) =
            (renderedSections cmp bs).map (fun pr => pr.2.countP (fun b => b.isFavorite)) := by
          apply List.map_congr_left
          intro pr hpr
          have hpr' : pr ∈ groupedSections cmp bs := mem_renderedSections cmp bs hpr
          have hk0 : starCount pr.1 = 0 := by
            obtain ⟨b, hbmem, he⟩ := group_key_from_record cmp bs
              (List.mem_map_of_mem Prod.fst hpr')
            rw [← he]
            unfold folderKey
            split
            · rfl
            · exact (hb b hbmem).2.2
          refine starCount_section pr hk0 ?_
          intro b hbmem
          have hflat : b ∈ ((groupedSections cmp bs).map Prod.snd).flatten :=
            List.mem_flatten.mpr ⟨pr.2, List.mem_map_of_mem Prod.snd hpr', hbmem⟩
          have hbs : b ∈ bs := (group_flatten_perm cmp bs).mem_iff.mp hflat
          exact ⟨(hb b hbs).1, (hb b hbs).2.1⟩
        rw [hcongr]
        have hps : List.Perm
            ((renderedSections cmp bs).map (fun pr => pr.2.countP (fun b => b.isFavorite)))
            ((groupedSections cmp bs).map (fun pr => pr.2.countP (fun b => b.isFavorite))) :=
          (jsObjectEntries_perm _).map _
        rw [hps.sum_eq]
        have hsum : ((groupedSections cmp bs).map
            (fun pr => pr.2.countP (fun b => b.isFavorite))).sum =
            (((groupedSections cmp bs).map Prod.snd).flatten).countP
              (fun b => b.isFavorite) := by
          rw [List.countP_flatten, List.map_map]
          rfl
        rw [hsum, (group_flatten_perm cmp bs).countP_eq, List.countP_eq_length_filter]
        omega

/-- The body the formatter renders for the four-record test fixture under
the default options. -/
def demoBody : String :=
  "今週のブックマークダイジェスト\n\n合計 4 件のブックマークが見つかりました。\n\nh4. コーディング\n* \"short-code\":https://example.com/short-code\n* \"typescript\":https://example.com/typescript %\x7bcolor: red\x7d★%\n\nh4. 生成AI\n* \"serena\":https://example.com/serena %\x7bcolor: red\x7d★%\n* \"spec-workflow\":https://example.com/spec-workflow"

set_option maxRecDepth 8192 in
/-- Witness for C8 at the test fixture: the formatter renders the body and it
carries exactly two favorite markers. -/
theorem c8_witness :
    starCount demoBody = 2 := by
  have h := (c8_favorite_marker cmpCodepoint demoBookmarks none true demoBody
    (by decide) (fun r hr => by cases hr) (by rfl)).2.2
  rw [h]
  decide

/-! ### The line structure of the rendered body -/

/-- The lines of one rendered folder section. -/
def sectionLines (pr : String × List Bookmark) : List String :=
  ("h4. " ++ pr.1) :: pr.2.map formatSingleBookmark

/-- Lines of the remaining sections, each preceded by the blank separator
line. -/
def linesSepTail : List (List String) → List String
  | [] => []
  | p :: ps => "" :: (p ++ linesSepTail ps)

/-- The lines of the section area: section line lists joined by one blank
line. -/
def joinSections : List (List String) → List String
  | [] => []
  | p :: ps => p ++ linesSepTail ps

/-- The lines of the body `formatBookmarksToEmailBody` renders for a
non-empty input under the default options (no date range, header included):
the two header lines, a blank line, and the rendered sections joined by blank
lines. -/
def bodyLines (cmp : String → String → Int) (bookmarks : List Bookmark) :
    List String :=
  ["今週のブックマークダイジェスト", "",
   "合計 " ++ toString bookmarks.length ++ " 件のブックマークが見つかりました。", ""]
    ++ joinSections ((renderedSections cmp bookmarks).map sectionLines)

lemma sepTail_append (s : String) (xs ys : List String) :
    sepTail s (xs ++ ys) = sepTail s xs ++ sepTail s ys := by
  induction xs with
  | nil => simp [sepTail]
  | cons a xs ih => simp [sepTail, ih, String.append_assoc]

lemma sepTail_eq_sep_intercalate (s : String) (l : List String) (h : l ≠ []) :
    sepTail s l = s ++ String.intercalate s l := by
  cases l with
  | nil => exact absurd rfl h
  | cons a as => rw [sepTail, intercalate_cons, String.append_assoc]

lemma formatFolderSection_lines (pr : String × List Bookmark) :
    formatFolderSection pr = String.intercalate "\n" (sectionLines pr) := by
  rw [formatFolderSection_eq, sectionLines, intercalate_cons]

lemma sepTail_linesSepTail (parts : List (List String))
    (hne : ∀ p ∈ parts, p ≠ []) :
    sepTail "\n" (linesSepTail parts) =
      sepTail "\n\n" (parts.map (String.intercalate "\n")) := by
  induction parts with
  | nil => rfl
  | cons q qs ih =>
    rw [linesSepTail, List.map_cons, sepTail, sepTail_append, sepTail]
    rw [ih fun p hp => hne p (List.mem_cons_of_mem q hp)]
    rw [sepTail_eq_sep_intercalate "\n" q (hne q (List.mem_cons_self q qs))]
    rfl

lemma intercalate_joinSections (parts : List (List String))
    (hne : ∀ p ∈ parts, p ≠ []) :
    String.intercalate "\n" (joinSections parts) =
      String.intercalate "\n\n" (parts.map (String.intercalate "\n")) := by
  cases parts with
  | nil => rfl
  | cons p ps =>
    have hpne : p ≠ [] := hne p (List.mem_cons_self p ps)
    obtain ⟨a, as, rfl⟩ : ∃ a as, p = a :: as := by
      cases p with
      | nil => exact absurd rfl hpne
      | cons a as => exact ⟨a, as, rfl⟩
    rw [joinSections, List.map_cons, List.cons_append, intercalate_cons,
      sepTail_append, intercalate_cons,
      sepTail_linesSepTail ps fun q hq => hne q (List.mem_cons_of_mem _ hq)]
    rw [intercalate_cons, String.append_assoc]

lemma group_ne_nil (cmp : String → String → Int) (bs : List Bookmark)
    (h : bs ≠ []) : renderedSections cmp bs ≠ [] := by
  obtain ⟨b, bs', rfl⟩ : ∃ b bs', bs = b :: bs' := by
    cases bs with
    | nil => exact absurd rfl h
    | cons b bs' => exact ⟨b, bs', rfl⟩
  intro hg
  have hmem : folderKey b ∈
      (groupedSections cmp (b :: bs')).map Prod.fst := by
    rw [mem_group_keys]
    exact List.mem_map_of_mem folderKey (List.mem_cons_self b bs')
  have hlen : (renderedSections cmp (b :: bs')).length =
      (groupedSections cmp (b :: bs')).length :=
    (jsObjectEntries_perm (groupedSections cmp (b :: bs'))).length_eq
  rw [hg] at hlen
  have hnil : groupedSections cmp (b :: bs') = [] := by
    apply List.length_eq_zero.mp
    simpa using hlen.symm
  rw [hnil] at hmem
  exact absurd hmem (List.not_mem_nil _)

lemma sectionLines_ne_nil (pr : String × List Bookmark) : sectionLines pr ≠ [] := by
  simp [sectionLines]

/-- The body a successful run renders for a non-empty input under the default
options is the newline join of `bodyLines`. -/
lemma body_eq_intercalate (cmp : String → String → Int) (bs : List Bookmark)
    (body : String) (hbs : bs ≠ [])
    (hok : formatBookmarksToEmailBody cmp bs none true = .ok body) :
    body = String.intercalate "\n" (bodyLines cmp bs) := by
  have hlen : ¬ bs.length = 0 := by simpa [List.length_eq_zero] using hbs
  have hparts : ∀ p ∈ (renderedSections cmp bs).map sectionLines, p ≠ [] := by
    intro p hp
    obtain ⟨pr, _, rfl⟩ := List.mem_map.mp hp
    exact sectionLines_ne_nil pr
  have hJne : joinSections ((renderedSections cmp bs).map sectionLines) ≠ [] := by
    obtain ⟨pr, g', hg⟩ : ∃ pr g', renderedSections cmp bs = pr :: g' := by
      cases hG : renderedSections cmp bs with
      | nil => exact absurd hG (group_ne_nil cmp bs hbs)
      | cons pr g' => exact ⟨pr, g', rfl⟩
    rw [hg, List.map_cons, joinSections]
    rw [sectionLines]
    simp
  unfold formatBookmarksToEmailBody at hok
  rw [if_neg hlen] at hok
  cases hg : groupBookmarksByFolder cmp bs with
  | error e => rw [hg] at hok; exact absurd hok (by simp)
  | ok g =>
    rw [hg] at hok
    simp only [Except.ok.injEq] at hok
    subst hok
    have hG := groupBookmarksByFolder_ok cmp bs g hg
    subst hG
    have hrs : jsObjectEntries (groupedSections cmp bs) =
        renderedSections cmp bs := rfl
    rw [hrs]
    simp only [if_true]
    have hsec : (renderedSections cmp bs).map formatFolderSection =
        ((renderedSections cmp bs).map sectionLines).map
          (String.intercalate "\n") := by
      rw [List.map_map]
      exact List.map_congr_left fun pr _ => formatFolderSection_lines pr
    rw [hsec, ← intercalate_joinSections _ hparts]
    rw [bodyLines]
    simp only [List.cons_append, List.nil_append]
    rw [intercalate_cons]
    simp only [sepTail]
    rw [sepTail_eq_sep_intercalate "\n" _ hJne]
    unfold formatHeader
    have hsuffix : rangeSuffix none = "" := rfl
    rw [hsuffix]
    have e1 : ("\n\n合計 " : String) = "\n" ++ "\n" ++ "合計 " := rfl
    have e2 : ("\n\n" : String) = "\n" ++ "\n" := rfl
    rw [e1, e2]
    simp only [String.append_assoc, String.append_empty, String.empty_append]

lemma countP_linesSepTail (p : String → Bool) (hp : p "" = false) :
    ∀ parts : List (List String),
      (linesSepTail parts).countP p = (parts.map (List.countP p)).sum := by
  intro parts
  induction parts with
  | nil => rfl
  | cons q qs ih =>
    simp [linesSepTail, List.countP_cons, List.countP_append, hp, ih]

lemma countP_joinSections (p : String → Bool) (hp : p "" = false)
    (parts : List (List String)) :
    (joinSections parts).countP p = (parts.map (List.countP p)).sum := by
  cases parts with
  | nil => rfl
  | cons q qs =>
    simp only [joinSections, List.countP_append, List.map_cons, List.sum_cons,
      countP_linesSepTail p hp qs]

lemma countP_bodyLines (cmp : String → String → Int) (bs : List Bookmark)
    (p : String → Bool) (hp0 : p "" = false)
    (hp1 : p "今週のブックマークダイジェスト" = false)
    (hp2 : p ("合計 " ++ toString bs.length
      ++ " 件のブックマークが見つかりました。") = false) :
    (bodyLines cmp bs).countP p =
      (((renderedSections cmp bs).map sectionLines).map (List.countP p)).sum := by
  rw [bodyLines, List.countP_append, countP_joinSections p hp0]
  simp [List.countP_cons, hp0, hp1, hp2]

lemma line_take2 (b : Bookmark) :
    (formatSingleBookmark b).data.take 2 = ['*', ' '] := by
  by_cases hf : b.isFavorite <;> simp only [formatSingleBookmark, hf] <;> rfl

lemma line_take4_beq (b : Bookmark) :
    ((formatSingleBookmark b).data.take 4 == "h4. ".data) = false := by
  by_cases hf : b.isFavorite <;> simp only [formatSingleBookmark, hf] <;> rfl

lemma beq_false_of_take1_ne (s t : String)
    (h : s.data.take 1 ≠ t.data.take 1) : (s == t) = false := by
  rw [beq_eq_false_iff_ne]
  intro he
  exact h (he ▸ rfl)

lemma line_ne_heading (b : Bookmark) (f : String) :
    (formatSingleBookmark b == "h4. " ++ f) = false := by
  rw [beq_eq_false_iff_ne]
  intro he
  have h2 := congrArg (fun s => s.data.take 2) he
  simp only at h2
  rw [line_take2 b] at h2
  have h3 : (("h4. " ++ f) : String).data.take 2 = ['h', '4'] := rfl
  rw [h3] at h2
  exact absurd h2 (by decide)

lemma countP_bline_section (pr : String × List Bookmark) :
    (sectionLines pr).countP (fun l => l.data.take 2 == ['*', ' ']) =
      pr.2.length := by
  rw [sectionLines, List.countP_cons]
  have hhead : ((("h4. " ++ pr.1) : String).data.take 2 == ['*', ' ']) = false := rfl
  have hlines : (pr.2.map formatSingleBookmark).countP
      (fun l => l.data.take 2 == ['*', ' ']) =
      (pr.2.map formatSingleBookmark).length := by
    rw [List.countP_eq_length]
    intro l hl
    obtain ⟨b, _, rfl⟩ := List.mem_map.mp hl
    rw [line_take2 b]
    rfl
  simp [hhead, hlines]

lemma countP_hline_section (pr : String × List Bookmark) :
    (sectionLines pr).countP (fun l => l.data.take 4 == "h4. ".data) = 1 := by
  rw [sectionLines, List.countP_cons]
  have hhead : ((("h4. " ++ pr.1) : String).data.take 4 == "h4. ".data) = true := rfl
  have hlines : (pr.2.map formatSingleBookmark).countP
      (fun l => l.data.take 4 == "h4. ".data) = 0 := by
    rw [List.countP_eq_zero]
    intro l hl
    obtain ⟨b, _, rfl⟩ := List.mem_map.mp hl
    simp [line_take4_beq b]
  simp [hhead, hlines]

lemma countP_headstr_section (pr : String × List Bookmark) (f : String) :
    (sectionLines pr).countP (fun l => l == "h4. " ++ f) =
      if pr.1 = f then 1 else 0 := by
  rw [sectionLines, List.countP_cons]
  have hlines : (pr.2.map formatSingleBookmark).countP
      (fun l => l == "h4. " ++ f) = 0 := by
    rw [List.countP_eq_zero]
    intro l hl
    obtain ⟨b, _, rfl⟩ := List.mem_map.mp hl
    simp [line_ne_heading b f]
  rw [hlines]
  by_cases hkf : pr.1 = f
  · subst hkf
    simp
  · have hne : ((("h4. " ++ pr.1) : String) == "h4. " ++ f) = false := by
      rw [beq_eq_false_iff_ne]
      intro he
      apply hkf
      have hd := congrArg String.data he
      simp only [String.data_append] at hd
      exact String.ext (List.append_cancel_left hd)
    simp [hne, hkf]

lemma sum_ones {α : Type} (l : List α) :
    (l.map fun _ => (1 : Nat)).sum = l.length := by
  induction l with
  | nil => rfl
  | cons a l ih => simp [ih]; omega

lemma sum_indicator_count_str (f : String) :
    ∀ l : List String, (l.map fun k => if k = f then 1 else 0).sum = l.count f := by
  intro l
  induction l with
  | nil => rfl
  | cons k l ih =>
    simp only [List.map_cons, List.sum_cons, List.count_cons, ih]
    by_cases hkf : k = f
    · simp [hkf]
      omega
    · simp [hkf]

lemma mem_linesSepTail {l : String} :
    ∀ parts : List (List String), l ∈ linesSepTail parts →
      l = "" ∨ ∃ p ∈ parts, l ∈ p := by
  intro parts
  induction parts with
  | nil => intro h; exact absurd h (List.not_mem_nil _)
  | cons q qs ih =>
    intro h
    rw [linesSepTail] at h
    rcases List.mem_cons.mp h with h | h
    · exact Or.inl h
    · rcases List.mem_append.mp h with h | h
      · exact Or.inr ⟨q, List.mem_cons_self q qs, h⟩
      · rcases ih h with h | ⟨p, hp, hlp⟩
        · exact Or.inl h
        · exact Or.inr ⟨p, List.mem_cons_of_mem q hp, hlp⟩

lemma mem_joinSections {l : String} :
    ∀ parts : List (List String), l ∈ joinSections parts →
      l = "" ∨ ∃ p ∈ parts, l ∈ p := by
  intro parts
  cases parts with
  | nil => intro h; exact absurd h (List.not_mem_nil _)
  | cons q qs =>
    intro h
    rw [joinSections] at h
    rcases List.mem_append.mp h with h | h
    · exact Or.inr ⟨q, List.mem_cons_self q qs, h⟩
    · rcases mem_linesSepTail qs h with h | ⟨p, hp, hlp⟩
      · exact Or.inl h
      · exact Or.inr ⟨p, List.mem_cons_of_mem q hp, hlp⟩

lemma newline_not_mem_line (b : Bookmark) (ht : '\n' ∉ b.title.data)
    (hu : '\n' ∉ b.url.data) :
    '\n' ∉ (formatSingleBookmark b).data := by
  have c1 : '\n' ∉ ("* \"" : String).data := by decide
  have c2 : '\n' ∉ ("\":" : String).data := by decide
  have c3 : '\n' ∉ (" %\x7bcolor: red\x7d★%" : String).data := by decide
  by_cases hf : b.isFavorite <;>
    simp only [formatSingleBookmark, hf, if_true, Bool.false_eq_true, if_false,
      String.data_append, List.mem_append] <;>
    tauto

lemma newline_not_mem_repr (n : Nat) : '\n' ∉ (Nat.repr n).data := by
  intro hm
  exact absurd (repr_all_digits n _ hm) (by decide)

/-- C10 (amended): for a non-empty record list with newline-free fields and
non-empty folder names, any body the formatter renders under the default
options is the newline join of the explicit line list `bodyLines`, every line
is newline-free, the lines opening with `* ` number exactly one per input
record, the lines opening with `h4. ` number exactly one per distinct folder
value, and every folder value occurring among the inputs owns exactly one
heading line.  (A record with an *empty* folder string is regrouped under the
placeholder `未分類` and gets no heading of its own — the counterexample; a
record whose folder name collides with an `Object.prototype` property makes
the formatter throw instead of rendering any body, which is why the
conclusions are conditioned on a rendered body.) -/
theorem c10_body_line_structure (cmp : String → String → Int)
    (bs : List Bookmark) (body : String) (hne : bs ≠ [])
    (hclean : ∀ b ∈ bs, '\n' ∉ b.title.data ∧ '\n' ∉ b.url.data ∧
      '\n' ∉ b.folder.data)
    (hfold : ∀ b ∈ bs, b.folder ≠ "")
    (hok : formatBookmarksToEmailBody cmp bs none true = .ok body) :
    body = String.intercalate "\n" (bodyLines cmp bs) ∧
    (∀ l ∈ bodyLines cmp bs, '\n' ∉ l.data) ∧
    (bodyLines cmp bs).countP (fun l => l.data.take 2 == ['*', ' ']) = bs.length ∧
    (bodyLines cmp bs).countP (fun l => l.data.take 4 == "h4. ".data) =
      (bs.map Bookmark.folder).dedup.length ∧
    (∀ f ∈ bs.map Bookmark.folder,
      (bodyLines cmp bs).count ("h4. " ++ f) = 1) := by
  have hfk : ∀ b ∈ bs, folderKey b = b.folder := fun b hb => by
    unfold folderKey
    rw [if_neg (hfold b hb)]
  have hrecmem : ∀ pr ∈ renderedSections cmp bs, ∀ b ∈ pr.2, b ∈ bs := by
    intro pr hpr b hb
    have hflat : b ∈ ((groupedSections cmp bs).map Prod.snd).flatten :=
      List.mem_flatten.mpr
        ⟨pr.2, List.mem_map_of_mem Prod.snd (mem_renderedSections cmp bs hpr), hb⟩
    exact (group_flatten_perm cmp bs).mem_iff.mp hflat
  refine ⟨body_eq_intercalate cmp bs body hne hok, ?_, ?_, ?_, ?_⟩
  · intro l hl
    rw [bodyLines] at hl
    rcases List.mem_append.mp hl with h | h
    · simp only [List.mem_cons, List.not_mem_nil, or_false] at h
      rcases h with rfl | rfl | rfl | rfl
      · decide
      · decide
      · intro hm
        simp only [String.data_append, List.mem_append] at hm
        rcases hm with (hm | hm) | hm
        · exact absurd hm (by decide)
        · exact absurd hm (newline_not_mem_repr bs.length)
        · exact absurd hm (by decide)
      · decide
    · rcases mem_joinSections _ h with rfl | ⟨p, hp, hlp⟩
      · decide
      · obtain ⟨pr, hpr, rfl⟩ := List.mem_map.mp hp
        rcases List.mem_cons.mp hlp with rfl | hline
        · intro hm
          simp only [String.data_append, List.mem_append] at hm
          rcases hm with hm | hm
          · exact absurd hm (by decide)
          · obtain ⟨b, hb, he⟩ := group_key_from_record cmp bs
              (List.mem_map_of_mem Prod.fst (mem_renderedSections cmp bs hpr))
            rw [← he, hfk b hb] at hm
            exact absurd hm (hclean b hb).2.2
        · obtain ⟨b, hbmem, rfl⟩ := List.mem_map.mp hline
          have hbs := hrecmem pr hpr b hbmem
          exact newline_not_mem_line b (hclean b hbs).1 (hclean b hbs).2.1
  · rw [countP_bodyLines cmp bs _ rfl rfl rfl, List.map_map]
    have hcongr : (renderedSections cmp bs).map
        (List.countP (fun l => l.data.take 2 == ['*', ' ']) ∘ sectionLines) =
        (renderedSections cmp bs).map (fun pr => pr.2.length) :=
      List.map_congr_left fun pr _ => countP_bline_section pr
    rw [hcongr]
    have hps : List.Perm
        ((renderedSections cmp bs).map (fun pr => pr.2.length))
        ((groupedSections cmp bs).map (fun pr => pr.2.length)) :=
      (jsObjectEntries_perm _).map _
    rw [hps.sum_eq]
    have h1 : (groupedSections cmp bs).map (fun pr => pr.2.length) =
        ((groupedSections cmp bs).map Prod.snd).map List.length := by
      rw [List.map_map]
      rfl
    rw [h1, ← List.length_flatten]
    exact (group_flatten_perm cmp bs).length_eq
  · rw [countP_bodyLines cmp bs _ rfl rfl rfl, List.map_map]
    have hcongr : (renderedSections cmp bs).map
        (List.countP (fun l => l.data.take 4 == "h4. ".data) ∘ sectionLines) =
        (renderedSections cmp bs).map (fun _ => 1) :=
      List.map_congr_left fun pr _ => countP_hline_section pr
    rw [hcongr, sum_ones]
    have hrlen : (renderedSections cmp bs).length =
        (groupedSections cmp bs).length :=
      (jsObjectEntries_perm _).length_eq
    have hglen : (groupedSections cmp bs).length = (keysInOrder bs).length := by
      rw [groupedSections, List.length_map, List.length_insertionSort]
      exact (jsObjectKeys_perm _).length_eq
    have hmapfk : bs.map folderKey = bs.map Bookmark.folder :=
      List.map_congr_left hfk
    have hfs : (keysInOrder bs).toFinset =
        ((bs.map Bookmark.folder).dedup).toFinset := by
      ext x
      simp only [List.mem_toFinset, keysInOrder_mem, List.mem_dedup, hmapfk]
    have hc1 := List.toFinset_card_of_nodup (keysInOrder_nodup bs)
    have hc2 := List.toFinset_card_of_nodup
      (List.nodup_dedup (bs.map Bookmark.folder))
    rw [hrlen, hglen, ← hc1, hfs, hc2]
  · intro f hf
    obtain ⟨bf, hbf, rfl⟩ := List.mem_map.mp hf
    have hmemk : bf.folder ∈ (groupedSections cmp bs).map Prod.fst := by
      rw [mem_group_keys]
      have := List.mem_map_of_mem folderKey hbf
      rw [hfk bf hbf] at this
      exact this
    have hcount_eq : (bodyLines cmp bs).count ("h4. " ++ bf.folder) =
        (bodyLines cmp bs).countP (fun l => l == "h4. " ++ bf.folder) := rfl
    have htake1 : (("h4. " ++ bf.folder) : String).data.take 1 = ['h'] := rfl
    have hp0 : (("" : String) == "h4. " ++ bf.folder) = false :=
      beq_false_of_take1_ne _ _ (by rw [htake1]; decide)
    have hp1 : (("今週のブックマークダイジェスト" : String) ==
        "h4. " ++ bf.folder) = false :=
      beq_false_of_take1_ne _ _ (by rw [htake1]; decide)
    have hp2 : ((("合計 " ++ toString bs.length
        ++ " 件のブックマークが見つかりました。") : String) ==
        "h4. " ++ bf.folder) = false := by
      refine beq_false_of_take1_ne _ _ ?_
      have h2 : (("合計 " ++ toString bs.length
          ++ " 件のブックマークが見つかりました。") : String).data.take 1 = ['合'] := rfl
      rw [htake1, h2]
      decide
    rw [hcount_eq, countP_bodyLines cmp bs _ hp0 hp1 hp2, List.map_map]
    have hcongr : (renderedSections cmp bs).map
        (List.countP (fun l => l == "h4. " ++ bf.folder) ∘ sectionLines) =
        (renderedSections cmp bs).map
          (fun pr => if pr.1 = bf.folder then 1 else 0) :=
      List.map_congr_left fun pr _ => countP_headstr_section pr bf.folder
    rw [hcongr]
    have h1 : (renderedSections cmp bs).map
        (fun pr => if pr.1 = bf.folder then 1 else 0) =
        ((renderedSections cmp bs).map Prod.fst).map
          (fun k => if k = bf.folder then 1 else 0) := by
      rw [List.map_map]
      rfl
    rw [h1, sum_indicator_count_str]
    have hpk : List.Perm ((renderedSections cmp bs).map Prod.fst)
        ((groupedSections cmp bs).map Prod.fst) :=
      (jsObjectEntries_perm _).map _
    rw [hpk.count_eq]
    exact List.count_eq_one_of_mem (group_keys_nodup cmp bs) hmemk

/-- A record whose folder value is the empty string (the model's `validate`
accepts it: only the type of `folder` is checked). -/
def emptyFolderRecord : Bookmark :=
  mkRecord "t" "https://example.com" "" false 0

/-- C10 counterexample: a record with the distinct folder value `""` is
regrouped under the placeholder — the rendered body carries the heading
`h4. 未分類` and no heading line `h4. ` for the folder value `""` exists, so
not every distinct input folder value appears as a heading line. -/
theorem c10_counterexample :
    formatBookmarksToEmailBody cmpCodepoint [emptyFolderRecord] none true =
      .ok "今週のブックマークダイジェスト\n\n合計 1 件のブックマークが見つかりました。\n\nh4. 未分類\n* \"t\":https://example.com" ∧
    (bodyLines cmpCodepoint [emptyFolderRecord]).count ("h4. " ++ "") = 0 ∧
    [emptyFolderRecord].map Bookmark.folder = [""] :=
  ⟨rfl, by decide, rfl⟩

set_option maxRecDepth 8192 in
/-- Witness for C10 at the four-record test fixture: the formatter renders a
body and it holds four bookmark lines. -/
theorem c10_witness :
    (bodyLines cmpCodepoint demoBookmarks).countP
      (fun l => l.data.take 2 == ['*', ' ']) = 4 := by
  have h := (c10_body_line_structure cmpCodepoint demoBookmarks demoBody
    (by decide) (by decide) (by decide) (by rfl)).2.2.1
  rw [h]
  decide

end EmailFormatter

end Dropcast
